import Mathlib

/-!
# taskd `api.cpp`: a shallow embedding and its verified properties

The C++ functions of `src/api.cpp` are translated as pure Lean functions.
A `std::string` is a list of characters, a thrown C++ exception is the
`error` side of `Except`, text sent to `std::cout` is returned as a value,
and the outside world (file system, child processes, the network peer) is a
record of functions that the translated code calls.
-/

namespace Taskd

/-! ## Strings -/

/-- A `std::string`: a finite sequence of characters. -/
abbrev Str := List Char

/-- The C++ exceptions that can cross the functions of `api.cpp`: a thrown
`std::string` (the only kind the code itself throws and catches) and the
`std::out_of_range` of `std::string::substr`. -/
inductive Exn where
  | str (msg : Str)
  | out_of_range
  deriving DecidableEq, Repr

/-- The C++ `s.find (c, pos)`: the index of the first `c` at or after `pos`;
`none` is `std::string::npos`. -/
def find (s : Str) (c : Char) (pos : Nat) : Option Nat :=
  let t := s.drop pos
  let i := t.indexOf c
  if i < t.length then some (pos + i) else none

/-- The C++ `s.rfind (c)`: the index of the last `c`; `none` is `std::string::npos`. -/
def rfind : Str → Char → Option Nat
  | [], _ => none
  | x :: xs, c =>
    match rfind xs c with
    | some i => some (i + 1)
    | none => if x = c then some 0 else none

/-- The C++ `s.substr (pos, n)` and, with `n = none`, `s.substr (pos)`: throws
`std::out_of_range` when `pos` is beyond the end of the string. -/
def substr (s : Str) (pos : Nat) (n : Option Nat) : Except Exn Str :=
  if pos > s.length then .error .out_of_range
  else
    match n with
    | none => .ok (s.drop pos)
    | some k => .ok ((s.drop pos).take k)

/-- The C++ `hay.find (needle) != std::string::npos`: `needle` occurs in `hay`. -/
def containsStr (needle : Str) : Str → Bool
  | [] => needle.isPrefixOf []
  | c :: cs => needle.isPrefixOf (c :: cs) || containsStr needle cs

/-! ## Configuration -/

/-- Modelled from the spec: the `Config` class is declared outside `api.cpp`.
It is "a mapping from name to value, keys unique, last-write-wins"; here the
entries are kept as a list of pairs in which `Config.set` never duplicates a
name. -/
abbrev Config := List (Str × Str)

/-- Modelled from the spec: `config.get (name)`; a missing setting reads as
the empty string. -/
def Config.get : Config → Str → Str
  | [], _ => []
  | (k, v) :: rest, name => if k = name then v else Config.get rest name

/-- Modelled from the spec: `config.set (name, value)`; an existing entry is
overwritten, otherwise a new one is added. -/
def Config.set : Config → Str → Str → Config
  | [], name, value => [(name, value)]
  | (k, v) :: rest, name, value =>
    if k = name then (k, value) :: rest else (k, v) :: Config.set rest name value

/-! ## Command-line overrides -/

/-- The C++ `bool taskd_applyOverride (Config& config, const std::string& arg)`.
The result is the returned flag, the configuration after the call and the
text written to `std::cout`. -/
def taskd_applyOverride (config : Config) (arg : Str) :
    Except Exn (Bool × Config × Str) := do
  let dashes ← substr arg 0 (some 2)
  if dashes = "--".toList then
    let equal : Option Nat :=
      match find arg '=' 2 with
      | some e => some e
      | none => find arg ':' 2
    match equal with
    | some e =>
      if e > 2 then
        let name ← substr arg 2 (some (e - 2))
        let value ← substr arg (e + 1) none
        pure (true, config.set name value,
              "- Override ".toList ++ name ++ ['='] ++ value ++ "\n".toList)
      else pure (false, config, [])
    | none => pure (false, config, [])
  else pure (false, config, [])

/-! ## Text helpers -/

/-- The pieces of a non-empty text between the occurrences of a delimiter. -/
def splitPieces (delimiter : Char) : Str → List Str
  | [] => [[]]
  | c :: cs =>
    if c = delimiter then [] :: splitPieces delimiter cs
    else
      match splitPieces delimiter cs with
      | [] => [[c]]
      | piece :: pieces => (c :: piece) :: pieces

/-- Modelled from the spec: `split (results, input, delimiter)` of `text.h` is
declared outside `api.cpp`. It cuts a "comma-separated list" at every comma
and an output "into lines" at every newline; an empty input has no pieces. -/
def split (input : Str) (delimiter : Char) : List Str :=
  if input = [] then [] else splitPieces delimiter input

/-- Modelled from the spec: `trim (text)` of `text.h` is declared outside
`api.cpp`. It removes the blanks at both ends of a `NAME: VALUE` field. -/
def trim (s : Str) : Str :=
  ((s.dropWhile (· == ' ')).reverse.dropWhile (· == ' ')).reverse

/-! ## The outside world -/

/-- One completed child process: the command line given to `popen`, the text
captured from its pipe and the status returned by `pclose`. -/
structure Run where
  command : Str
  output : Str
  status : Int
  deriving DecidableEq, Repr

/-- The child processes run so far, oldest first. -/
abbrev History := List Run

/-- The collaborators that `api.cpp` calls but does not define. What a child
process prints and returns may depend on everything that was run before it;
file permissions and directory contents are fixed during one call. -/
structure Env where
  /-- The C++ `Path (p).executable ()`. -/
  executable : Str → Bool
  /-- The C++ `Path::glob (pattern)`: the matches, in the order the glob yields them. -/
  glob : Str → List Str
  /-- The C++ `popen`, the `fgets` loop that appends what it reads to `output`,
  and `pclose`: the text captured in `output` and the status returned, or
  `none` when the pipe cannot be opened. -/
  popen : History → Str → Option (Str × Int)
  /-- The C++ `Color (name).colorize (text)`. -/
  colorize : Str → Str → Str
  /-- The C++ `config.getBoolean (name)`. -/
  getBoolean : Config → Str → Bool

/-- The `Log` sink: the entries written so far, oldest first. -/
abbrev Log := List Str

/-- The C++ `log.write (text, multiline)` and `log.format (...)` with its text
already formatted: append one entry. -/
def Log.write (log : Log) (text : Str) : Log := log ++ [text]

/-! ## Process execution -/

/-- The C++ `int taskd_execute (const std::string& command, std::string& output)`.
The result is the status, the new content of `output` and the extended
history; a pipe that cannot be opened throws. -/
def taskd_execute (env : Env) (history : History) (command : Str) (_output : Str) :
    Except Exn (Int × Str × History) :=
  match env.popen history command with
  | some (text, status) =>
    -- output = ""; while (fgets ...) output += line; status = pclose (pipe);
    .ok (status, [] ++ text, history ++ [⟨command, text, status⟩])
  | none =>
    .error (.str ("ERROR: Could not execute '".toList ++ command ++ "'".toList))

/-! ## Extensions -/

/-- The body of the inner `for` loop of the configuration-parsing
`taskd_runExtension`: one line of plugin output against the configuration and
the text written to `std::cout`. -/
def parseLine (env : Env) (verbose : Bool) (line : Str) (config : Config) (cout : Str) :
    Except Exn (Config × Str) :=
  match find line ':' 0 with
  | none => .ok (config, cout)
  | some colon => do
    let name := trim (← substr line 0 (some colon))
    let value := trim (← substr line (colon + 1) none)
    if name = "WARNING".toList then
      pure (config,
            cout ++ env.colorize "yellow".toList ("- ".toList ++ name ++ ": ".toList ++ value)
              ++ "\n".toList)
    else
      pure (config.set name value,
            if verbose then cout ++ "    ".toList ++ name ++ "=".toList ++ value ++ "\n".toList
            else cout)

/-- The inner `for` loop of the configuration-parsing `taskd_runExtension`
over the lines of a plugin's output. -/
def parseLines (env : Env) (verbose : Bool) :
    List Str → Config → Str → Except Exn (Config × Str)
  | [], config, cout => .ok (config, cout)
  | line :: rest, config, cout =>
    match parseLine env verbose line config cout with
    | .error e => .error e
    | .ok (config1, cout1) => parseLines env verbose rest config1 cout1

/-- The `for` loop over the glob matches of the configuration-parsing
`taskd_runExtension`, with the local `status` as an argument. -/
def runExtensionLoop (env : Env) (arguments : Str) (verbose : Bool) :
    List Str → Int → Config → Str → History → Except Exn (Int × Config × Str × History)
  | [], status, config, cout, history => .ok (status, config, cout, history)
  | plugin :: rest, status, config, cout, history =>
    if env.executable plugin then
      let command := plugin ++ " ".toList ++ arguments
      let cout1 :=
        if verbose then cout ++ "- taskd_runExtension ".toList ++ command ++ "\n".toList
        else cout
      match taskd_execute env history command [] with
      | .error e => .error e
      | .ok (status1, out, history1) =>
        if status1 = 0 then
          match parseLines env verbose (split out '\n') config cout1 with
          | .error e => .error e
          | .ok (config1, cout2) => .ok (status1, config1, cout2, history1)
        else runExtensionLoop env arguments verbose rest status1 config cout1 history1
    else runExtensionLoop env arguments verbose rest status config cout history

/-- The C++ `int taskd_runExtension (pattern, arguments, Config& config, bool verbose)`.
The result is the returned status, the configuration after the call, the text
written to `std::cout` and the extended history. -/
def taskd_runExtension (env : Env) (pattern arguments : Str) (config : Config)
    (verbose : Bool) (history : History) : Except Exn (Int × Config × Str × History) :=
  let fqPattern := config.get "extensions".toList ++ "/".toList ++ pattern
  let paths := env.glob fqPattern
  match runExtensionLoop env arguments verbose paths 0 config [] history with
  | .error e => .error e
  | .ok (status, config1, cout, history1) =>
    if paths.length = 0 && verbose then
      .ok (status, config1,
           cout ++ "- taskd_runExtension '".toList ++ fqPattern
             ++ "' not found - continuing.\n".toList,
           history1)
    else .ok (status, config1, cout, history1)

/-- The `for` loop over the glob matches of the output-accumulating
`taskd_runExtension`, with the local `status` and the caller's `output` as
arguments. -/
def runExtensionOutputLoop (env : Env) (arguments : Str) (config : Config) :
    List Str → Int → Str → History → Except Exn (Int × Str × History)
  | [], status, output, history => .ok (status, output, history)
  | plugin :: rest, status, output, history =>
    if env.executable plugin then
      let command := plugin ++ " ".toList ++ arguments
      let output1 :=
        if env.getBoolean config "verbose".toList then
          output ++ ("--- taskd_runExtension ".toList ++ command ++ "\n".toList)
        else output
      match taskd_execute env history command output1 with
      | .error e => .error e
      | .ok (status1, output2, history1) =>
        if status1 = 0 then .ok (status1, output2, history1)
        else runExtensionOutputLoop env arguments config rest status1 output2 history1
    else runExtensionOutputLoop env arguments config rest status output history

/-- The C++ `int taskd_runExtension (pattern, arguments, std::string& output, Config& config)`.
The result is the returned status, the content of `output` after the call and
the extended history. -/
def taskd_runExtension_output (env : Env) (pattern arguments : Str) (output : Str)
    (config : Config) (history : History) : Except Exn (Int × Str × History) :=
  let fqPattern := config.get "extensions".toList ++ "/".toList ++ pattern
  let paths := env.glob fqPattern
  match runExtensionOutputLoop env arguments config paths 0 output history with
  | .error e => .error e
  | .ok (status, output1, history1) =>
    if paths.length = 0 && env.getBoolean config "verbose".toList then
      .ok (status,
           output1 ++ ("--- taskd_runExtension '".toList ++ fqPattern
             ++ "' not found.\n".toList),
           history1)
    else .ok (status, output1, history1)

/-! ## Hooks -/

/-- The `for` loop over the scripts of `taskd_runHook`, with the local
`status` as an argument. -/
def runHookLoop (env : Env) (hook arguments : Str) :
    List Str → Int → Log → History → Except Exn (Int × Log × History)
  | [], status, log, history => .ok (status, log, history)
  | h :: rest, status, log, history =>
    if env.executable h || containsStr "taskd ".toList h then
      let command := h ++ " ".toList ++ arguments
      match taskd_execute env history command [] with
      | .error e => .error e
      | .ok (status1, output, history1) =>
        let log1 := (log.write (hook ++ ": ".toList ++ command)).write output
        if status1 ≠ 0 then .ok (status1, log1, history1)
        else runHookLoop env hook arguments rest status1 log1 history1
    else
      runHookLoop env hook arguments rest status
        (log.write ("ERROR: Hook '".toList ++ hook ++ "' script '".toList ++ h
          ++ "' not executable.".toList))
        history

/-- The C++ `int taskd_runHook (hook, arguments, Log& log, Config& config)`. The
result is the returned status, the log after the call and the extended
history. -/
def taskd_runHook (env : Env) (hook arguments : Str) (log : Log) (config : Config)
    (history : History) : Except Exn (Int × Log × History) :=
  let scripts := config.get hook
  if scripts ≠ [] then
    runHookLoop env hook arguments (split scripts ',') 0 log history
  else .ok (0, log, history)

/-! ## Message transport -/

/-- A call made on the `Socket` of one `taskd_sendMessage`. -/
inductive SocketCall where
  | connect (host port : Str)
  | write (data : Str)
  | read
  | close
  deriving DecidableEq, Repr

/-- Modelled from the spec: the `Socket` class is declared outside `api.cpp`.
It is the connection interface `connect (host, port)`, `write (bytes)`,
`read () -> bytes`, `close ()`, "raising on any network-level failure", and
errors are signalled by thrown strings: each step either succeeds or throws a
`std::string`, here the `error` side. -/
structure Peer where
  connect : Str → Str → Except Str Unit
  write : Str → Except Str Unit
  read : Except Str Str
  close : Except Str Unit

/-- Modelled from the spec: the `Msg` class is declared outside `api.cpp`.
`serialize` renders a message as text, `parse` reads a response into a
message and throws a `std::string` on a malformed one, in which case the
message is left in the state given beside the error; `empty` is the
default-constructed message. -/
structure MsgOps (M : Type) where
  empty : M
  serialize : M → Str
  parse : M → Str → M × Except Str Unit

/-- The socket statements of the `try` block that both overloads of
`taskd_sendMessage` share, from `s.connect` to `s.close`: the response read,
or the string thrown by the first failing step, and the calls made. -/
def exchange (peer : Peer) (server port data : Str) : Except Str Str × List SocketCall :=
  match peer.connect server port with
  | .error e => (.error e, [.connect server port])
  | .ok _ =>
    match peer.write data with
    | .error e => (.error e, [.connect server port, .write data])
    | .ok _ =>
      match peer.read with
      | .error e => (.error e, [.connect server port, .write data, .read])
      | .ok response =>
        match peer.close with
        | .error e => (.error e, [.connect server port, .write data, .read, .close])
        | .ok _ => (.ok response, [.connect server port, .write data, .read, .close])

/-- The C++ `bool taskd_sendMessage (Config& config, const std::string& to, const Msg& out)`.
The result is the returned flag, or the exception that reaches the caller, and
the socket calls made. -/
def taskd_sendMessage {M : Type} (ops : MsgOps M) (peer : Peer) (config : Config)
    (toName : Str) (out : M) : Except Exn Bool × List SocketCall :=
  let destination := config.get toName
  match rfind destination ':' with
  | none =>
    (.error (.str ("ERROR: Malformed configuration setting '".toList ++ destination
      ++ "'".toList)), [])
  | some colon =>
    match substr destination 0 (some colon), substr destination (colon + 1) none with
    | .error e, _ => (.error e, [])
    | .ok _, .error e => (.error e, [])
    | .ok server, .ok port =>
      -- try { ... } catch (std::string& error) { }
      match exchange peer server port (ops.serialize out ++ "\n".toList) with
      | (.error _, calls) => (.ok false, calls)
      | (.ok response, calls) =>
        match ops.parse ops.empty response with
        | (_, .error _) => (.ok false, calls)
        | (_, .ok _) => (.ok true, calls)

/-- The C++ `bool taskd_sendMessage (Config& config, const std::string& to, const Msg& out, Msg& in)`.
The result is the returned flag, or the exception that reaches the caller, the
message `in` after the call and the socket calls made. -/
def taskd_sendMessage_in {M : Type} (ops : MsgOps M) (peer : Peer) (config : Config)
    (toName : Str) (out : M) (inMsg : M) : Except Exn Bool × M × List SocketCall :=
  let destination := config.get toName
  match rfind destination ':' with
  | none =>
    (.error (.str ("ERROR: Malformed configuration setting '".toList ++ destination
      ++ "'".toList)), inMsg, [])
  | some colon =>
    match substr destination 0 (some colon), substr destination (colon + 1) none with
    | .error e, _ => (.error e, inMsg, [])
    | .ok _, .error e => (.error e, inMsg, [])
    | .ok server, .ok port =>
      -- try { ... } catch (std::string& error) { }
      match exchange peer server port (ops.serialize out ++ "\n".toList) with
      | (.error _, calls) => (.ok false, inMsg, calls)
      | (.ok response, calls) =>
        match ops.parse inMsg response with
        | (inMsg1, .error _) => (.ok false, inMsg1, calls)
        | (inMsg1, .ok _) => (.ok true, inMsg1, calls)

/-! ## Status codes -/

/-- The table `errors[]`, in source order. -/
def errors : List (Int × Str) :=
  [ -- 2xx Success.
    (200, "Ok".toList),
    (201, "No change".toList),
    (202, "Decline".toList),
    -- 3xx Partial success.
    (300, "Deprecated request type".toList),
    (301, "Redirect".toList),
    (302, "Retry".toList),
    -- 4xx Client error.
    (401, "Failure".toList),
    (400, "Malformed data".toList),
    (401, "Unsupported encoding".toList),
    (420, "Server temporarily unavailable".toList),
    (430, "Access denied".toList),
    (431, "Account suspended".toList),
    (432, "Account terminated".toList),
    -- 5xx Server error.
    (500, "Syntax error in request".toList),
    (501, "Syntax error, illegal parameters".toList),
    (502, "Not implemented".toList),
    (503, "Command parameter not implemented".toList),
    (504, "Request too big".toList) ]

/-- The `for` loop of `taskd_error` over the rest of the table. -/
def errorLoop (code : Int) : List (Int × Str) → Str
  | [] => "[Missing error code]".toList
  | (c, reason) :: rest => if code = c then reason else errorLoop code rest

/-- The C++ `std::string taskd_error (const int code)`. -/
def taskd_error (code : Int) : Str := errorLoop code errors


/-! ## Required settings, versions and headers -/

/-- The C++ `void taskd_requireSetting (Config& config, const std::string& name)`.
The result is the normal return or the thrown exception, and the
configuration after the call. -/
def taskd_requireSetting (config : Config) (name : Str) : Except Exn Unit × Config :=
  if config.get name = [] then
    (.error (.str ("ERROR: Required configuration setting '".toList ++ name
      ++ "' not found.".toList)), config)
  else (.ok (), config)

/-- Modelled from the spec: the `Msg` class is declared outside `api.cpp`. A
protocol message is "an ordered mapping of header name → header value" plus
a payload body. -/
structure Msg where
  header : List (Str × Str)
  payload : Str
  deriving DecidableEq, Repr

/-- Modelled from the spec: `message.get (name)`, the value of the first
header of that name; a missing header reads as the empty string. -/
def Msg.get (message : Msg) (name : Str) : Str :=
  match message.header.find? (fun entry => entry.1 = name) with
  | some entry => entry.2
  | none => []

/-- The C++ `bool taskd_at_least (const std::string& left, const std::string& right)`,
documented as "Tests left >= right, where left and right are version number
strings"; its body is `// TODO Implement this.` and `return true;`. -/
def taskd_at_least (_left _right : Str) : Bool := true

/-- The C++ `void taskd_requireVersion (const Msg& message, const std::string& version)`,
documented as "Assert: message.version >= version". -/
def taskd_requireVersion (message : Msg) (version : Str) : Except Exn Unit :=
  if ! taskd_at_least (message.get "version".toList) version then
    .error (.str ("ERROR: Need at least version ".toList ++ version))
  else .ok ()

/-- The C++ `void taskd_requireHeader (const Msg& message, const std::string& name,
const std::string& value)`. The helper `format (text, arg1, arg2)` of `text.h` is
declared outside `api.cpp` and is an argument here. -/
def taskd_requireHeader (format : Str → Str → Str → Str) (message : Msg)
    (name value : Str) : Except Exn Unit :=
  if message.get name ≠ value then
    .error (.str (format "ERROR: Message \x7b1\x7d should be '\x7b2\x7d'".toList name value))
  else .ok ()

/-! ## Organizations, groups and users -/

/-- Modelled from the spec: the `Directory` class is declared outside
`api.cpp`. It is a path into the "hierarchical existence store", and
`d += name` descends into the child `name`, giving the fixed shape
`root/orgs/<org>[/groups/<group> | /users/<user>]`. -/
structure Directory where
  data : Str
  deriving DecidableEq, Repr

/-- Modelled from the spec: `d += name`, the path of the child `name`. -/
def Directory.add (d : Directory) (name : Str) : Directory :=
  ⟨d.data ++ "/".toList ++ name⟩

/-- The C++ `bool taskd_is_org (const Directory& root, const std::string& org)`.
The store's `exists (path) -> bool` is the argument `pathExists`. -/
def taskd_is_org (pathExists : Str → Bool) (root : Directory) (org : Str) : Bool :=
  let d := root
  let d := d.add "orgs".toList
  let d := d.add org
  pathExists d.data

/-- The C++ `bool taskd_is_group (const Directory& root, const std::string& org,
const std::string& group)`. -/
def taskd_is_group (pathExists : Str → Bool) (root : Directory) (org group : Str) : Bool :=
  let d := root
  let d := d.add "orgs".toList
  let d := d.add org
  let d := d.add "groups".toList
  let d := d.add group
  pathExists d.data

/-- The C++ `bool taskd_is_user (const Directory& root, const std::string& org,
const std::string& user)`. -/
def taskd_is_user (pathExists : Str → Bool) (root : Directory) (org user : Str) : Bool :=
  let d := root
  let d := d.add "orgs".toList
  let d := d.add org
  let d := d.add "users".toList
  let d := d.add user
  pathExists d.data

/-! ## Vocabulary of the properties -/

/-- The runs `runs`, made one after the other from the history `history`, are
what the world answers: each command was opened at the history reached and
gave the recorded output and status. -/
def answered (env : Env) : History → List Run → Bool
  | _, [] => true
  | history, r :: rest =>
    decide (env.popen history r.command = some (r.output, r.status))
      && answered env (history ++ [r]) rest

/-- A hook script is runnable when its path is executable or it contains the
text `taskd `. -/
def runnable (env : Env) (h : Str) : Bool :=
  env.executable h || containsStr "taskd ".toList h

/-- The command lines of the runnable scripts of a hook list, in list order. -/
def hookCommands (env : Env) (arguments : Str) (hooks : List Str) : List Str :=
  (hooks.filter (runnable env)).map (· ++ " ".toList ++ arguments)

/-- The command lines of the executable glob matches, in glob order. -/
def extensionCommands (env : Env) (arguments : Str) (paths : List Str) : List Str :=
  (paths.filter env.executable).map (· ++ " ".toList ++ arguments)

/-- A small world for concrete checks: every path is executable, the glob
yields the plugins `/ext/p1` and `/ext/p2`, and a command exits with status 3
when it starts with `B` or `/ext/p1`, and with status 0 otherwise, printing
`foo: bar`. -/
def demoEnv : Env where
  executable := fun _ => true
  glob := fun _ => ["/ext/p1".toList, "/ext/p2".toList]
  popen := fun _ c =>
    if "B".toList.isPrefixOf c || "/ext/p1".toList.isPrefixOf c then some ("no".toList, 3)
    else some ("foo: bar\n".toList, 0)
  colorize := fun _ text => text
  getBoolean := fun _ _ => true

/-- The handling of one line of plugin output as the specification words it:
a line without a colon is ignored; otherwise the name is the trimmed text
before the first colon and the value the trimmed text after it, a `WARNING`
line writes nothing and any other line sets `config[name] = value`. -/
def spec_handleLine (line : Str) (config : Config) : Config :=
  if ':' ∈ line then
    let name := trim (line.takeWhile (· != ':'))
    let value := trim ((line.dropWhile (· != ':')).drop 1)
    if name = "WARNING".toList then config else config.set name value
  else config

/-- The handling of a whole output text as the specification words it: its
lines, first to last, each handled by `spec_handleLine`. -/
def spec_handleOutput (text : Str) (config : Config) : Config :=
  (split text '\n').foldl (fun c line => spec_handleLine line c) config

/-- A peer for concrete checks that refuses every connection. -/
def downPeer : Peer where
  connect := fun _ _ => .error "Connection refused".toList
  write := fun _ => .ok ()
  read := .ok []
  close := .ok ()

/-- Message operations for concrete checks: a message is its own text and
every response parses. -/
def textMsg : MsgOps Str where
  empty := []
  serialize := fun m => m
  parse := fun _ response => (response, .ok ())

/-- A world for concrete checks in which the glob finds no plugin. -/
def noPluginEnv : Env where
  executable := fun _ => true
  glob := fun _ => []
  popen := fun _ _ => some ([], 0)
  colorize := fun _ text => text
  getBoolean := fun _ _ => true

/-- A world for concrete checks in which the only plugin, `/ext/p1`, prints
`foo: bar` and exits with status 1. -/
def failEnv : Env where
  executable := fun _ => true
  glob := fun _ => ["/ext/p1".toList]
  popen := fun _ _ => some ("foo: bar\n".toList, 1)
  colorize := fun _ text => text
  getBoolean := fun _ _ => true

/-- The store that holds only the tree `root/orgs/acme/groups/eng`: the root
and the four directories below it. -/
def treeStore (root : Str) : Str → Bool :=
  fun path =>
    decide (path ∈ [root,
                    root ++ "/orgs".toList,
                    root ++ "/orgs/acme".toList,
                    root ++ "/orgs/acme/groups".toList,
                    root ++ "/orgs/acme/groups/eng".toList])

/-- A message for concrete checks: version `0.9.0`, type `sync`, no payload. -/
def oldMsg : Msg where
  header := [("version".toList, "0.9.0".toList), ("type".toList, "sync".toList)]
  payload := []

/-- The two log entries of one executed hook script: `<hook>: <command>` and
then its captured output. -/
def runEntries (hook : Str) (r : Run) : List Str :=
  [hook ++ ": ".toList ++ r.command, r.output]

/-- The log entries of a hook run as the specification words it: going
through the scripts that were reached, an executed script contributes the two
entries of its run and a script that is not runnable contributes the "not
executable" error. -/
def spec_hookLog (env : Env) (hook : Str) : List Str → List Run → List Str
  | [], _ => []
  | h :: rest, runs =>
    if runnable env h then
      match runs with
      | r :: runs1 => runEntries hook r ++ spec_hookLog env hook rest runs1
      | [] => []
    else
      ("ERROR: Hook '".toList ++ hook ++ "' script '".toList ++ h
        ++ "' not executable.".toList) :: spec_hookLog env hook rest runs

/-- A world for concrete checks in which the only plugin, `/ext/p1`, prints
a warning and a setting, `WARNING: disk low` and `foo: bar`, and exits with
status 0. -/
def warnEnv : Env where
  executable := fun _ => true
  glob := fun _ => ["/ext/p1".toList]
  popen := fun _ _ => some ("WARNING: disk low\nfoo: bar\n".toList, 0)
  colorize := fun _ text => text
  getBoolean := fun _ _ => true

/-! ## Properties -/

theorem Config.get_set_self (c : Config) (name value : Str) :
    (c.set name value).get name = value := by
  induction c with
  | nil => simp [Config.set, Config.get]
  | cons p rest ih =>
    obtain ⟨k, v⟩ := p
    by_cases h : k = name
    · simp [Config.set, Config.get, h]
    · simp [Config.set, Config.get, h, ih]

theorem Config.get_set_other (c : Config) (name value other : Str) (h : name ≠ other) :
    (c.set name value).get other = c.get other := by
  induction c with
  | nil => simp [Config.set, Config.get, h]
  | cons p rest ih =>
    obtain ⟨k, v⟩ := p
    by_cases hk : k = name
    · subst hk; simp [Config.set, Config.get, h]
    · by_cases hk2 : k = other
      · subst hk2; simp [Config.set, Config.get, hk]
      · simp [Config.set, Config.get, hk, hk2, ih]

theorem find_none_of_not_mem (s : Str) (c : Char) (pos : Nat) (h : c ∉ s.drop pos) :
    find s c pos = none := by
  have : (s.drop pos).indexOf c = (s.drop pos).length := List.indexOf_eq_length.mpr h
  simp [find, this]

theorem find_some_of_split (pre mid rest : Str) (c : Char) (h : c ∉ mid) :
    find (pre ++ mid ++ c :: rest) c pre.length = some (pre.length + mid.length) := by
  have hd : (pre ++ mid ++ c :: rest).drop pre.length = mid ++ c :: rest := by
    rw [List.append_assoc]; exact List.drop_left' rfl
  have hi : (mid ++ c :: rest).indexOf c = mid.length := by
    rw [List.indexOf_append_of_not_mem h]; simp
  simp [find, hd, hi]

theorem find_mem (s : Str) (c : Char) (pos e : Nat) (h : find s c pos = some e) :
    pos ≤ e ∧ e < s.length ∧ s[e]? = some c := by
  unfold find at h
  simp only at h
  split at h
  · rename_i hlt
    simp only [Option.some.injEq] at h
    subst h
    have hlen : (s.drop pos).length = s.length - pos := List.length_drop pos s
    refine ⟨Nat.le_add_right _ _, by omega, ?_⟩
    rw [← List.getElem?_drop, List.getElem?_eq_getElem hlt]
    simp
  · simp at h

/-- The separator position chosen by `taskd_applyOverride`: the first `=`
at or after index 2, and the first `:` there only when there is no `=`. -/
theorem applyOverride_of_sep (config : Config) (arg : Str) (e : Nat)
    (hd : arg.take 2 = ['-', '-'])
    (hsel : (match find arg '=' 2 with
              | some e => some e
              | none => find arg ':' 2) = some e)
    (he : 2 < e) (hlt : e < arg.length) :
    taskd_applyOverride config arg =
      .ok (true, config.set ((arg.drop 2).take (e - 2)) (arg.drop (e + 1)),
           "- Override ".toList ++ (arg.drop 2).take (e - 2) ++ ['='] ++ arg.drop (e + 1)
             ++ "\n".toList) := by
  have h2 : ¬ (2 > arg.length) := by omega
  have h3 : ¬ (e + 1 > arg.length) := by omega
  have hd' : "--".toList = ['-', '-'] := rfl
  simp only [taskd_applyOverride, substr, hd', hsel]
  simp [bind, Except.bind, pure, Except.pure, hd, h2, h3, he]

theorem applyOverride_of_no_sep (config : Config) (arg : Str)
    (hsel : (match find arg '=' 2 with
              | some e => some e
              | none => find arg ':' 2) = none) :
    taskd_applyOverride config arg = .ok (false, config, []) := by
  simp only [taskd_applyOverride, substr, hsel]
  simp [bind, Except.bind, pure, Except.pure]

theorem applyOverride_of_sep_le (config : Config) (arg : Str) (e : Nat)
    (hsel : (match find arg '=' 2 with
              | some e => some e
              | none => find arg ':' 2) = some e)
    (he : ¬ 2 < e) :
    taskd_applyOverride config arg = .ok (false, config, []) := by
  simp only [taskd_applyOverride, substr, hsel]
  simp [bind, Except.bind, pure, Except.pure, he]

theorem applyOverride_of_no_dashes (config : Config) (arg : Str)
    (hd : arg.take 2 ≠ ['-', '-']) :
    taskd_applyOverride config arg = .ok (false, config, []) := by
  have hd' : "--".toList = ['-', '-'] := rfl
  simp only [taskd_applyOverride, substr, hd']
  simp [bind, Except.bind, pure, Except.pure, hd]

/-- C1 (as stated, refuted): with name `a` and value `b=c` the colon form
`--a:b=c` is split at the `=`, so the call returns true but stores `c` under
the name `a:b` and leaves `config["a"]` empty instead of `b=c`. -/
theorem applyOverride_colon_form_counterexample :
    taskd_applyOverride [] ("--".toList ++ "a".toList ++ ':' :: "b=c".toList)
        = .ok (true, [("a:b".toList, "c".toList)], "- Override a:b=c\n".toList)
      ∧ Config.get [("a:b".toList, "c".toList)] "a".toList ≠ "b=c".toList := by
  constructor
  · rfl
  · decide

/-- C1 (amended): for a non-empty name without `=` and `:` and any value,
`--name=value` returns true and leaves `config[name] == value`; `--name:value`
returns true as well, and leaves `config[name] == value` when the value holds
no `=`. -/
theorem applyOverride_sets_value (config : Config) (name value : Str)
    (hne : name ≠ []) (heq : '=' ∉ name) (hcol : ':' ∉ name) :
    (taskd_applyOverride config ("--".toList ++ name ++ '=' :: value)
        = .ok (true, config.set name value,
               "- Override ".toList ++ name ++ ['='] ++ value ++ "\n".toList)
      ∧ (config.set name value).get name = value)
    ∧ (∃ cfg out, taskd_applyOverride config ("--".toList ++ name ++ ':' :: value)
        = .ok (true, cfg, out))
    ∧ ('=' ∉ value →
        taskd_applyOverride config ("--".toList ++ name ++ ':' :: value)
          = .ok (true, config.set name value,
                 "- Override ".toList ++ name ++ ['='] ++ value ++ "\n".toList)) := by
  have hd' : "--".toList = ['-', '-'] := rfl
  have hpos : 0 < name.length := List.length_pos.mpr hne
  -- the shape shared by both forms
  have shape : ∀ (sep : Char) (e : Nat),
      (match find (['-', '-'] ++ name ++ sep :: value) '=' 2 with
        | some e => some e
        | none => find (['-', '-'] ++ name ++ sep :: value) ':' 2) = some e →
      e = 2 + name.length →
      taskd_applyOverride config (['-', '-'] ++ name ++ sep :: value)
        = .ok (true, config.set name value,
               "- Override ".toList ++ name ++ ['='] ++ value ++ "\n".toList) := by
    intro sep e hsel he
    have h := applyOverride_of_sep config (['-', '-'] ++ name ++ sep :: value) e
      (by simp) hsel (by omega) (by simp; omega)
    have hn : List.take (e - 2) (List.drop 2 (['-', '-'] ++ name ++ sep :: value)) = name := by
      have : e - 2 = name.length := by omega
      rw [this]; simp
    have hv : List.drop (e + 1) (['-', '-'] ++ name ++ sep :: value) = value := by
      have : e + 1 = (['-', '-'] ++ name ++ [sep]).length := by simp; omega
      rw [this]
      have : ['-', '-'] ++ name ++ sep :: value = (['-', '-'] ++ name ++ [sep]) ++ value := by simp
      rw [this, List.drop_left]
    rw [h, hn, hv]
  have hfe : find (['-', '-'] ++ name ++ '=' :: value) '=' 2 = some (2 + name.length) :=
    find_some_of_split ['-', '-'] name value '=' heq
  have hfc : find (['-', '-'] ++ name ++ ':' :: value) ':' 2 = some (2 + name.length) :=
    find_some_of_split ['-', '-'] name value ':' hcol
  rw [hd']
  refine ⟨⟨shape '=' _ (by rw [hfe]) rfl, Config.get_set_self _ _ _⟩, ?_, ?_⟩
  · -- the colon form always returns true
    cases hfind : find (['-', '-'] ++ name ++ ':' :: value) '=' 2 with
    | none =>
      exact ⟨_, _, shape ':' _ (by rw [hfind, hfc]) rfl⟩
    | some e =>
      have hm := find_mem _ _ _ _ hfind
      have he2 : e ≠ 2 := by
        intro h2
        rw [h2] at hm
        have hget : (['-', '-'] ++ name ++ ':' :: value)[2]? = name[0]? := by
          cases name with
          | nil => exact absurd rfl hne
          | cons a t => simp
        rw [hget] at hm
        have : '=' ∈ name := by
          have h0 := hm.2.2
          exact List.getElem?_mem h0
        exact heq this
      exact ⟨_, _, applyOverride_of_sep config _ e (by simp) (by rw [hfind]) (by omega) hm.2.1⟩
  · intro hv
    have hnone : find (['-', '-'] ++ name ++ ':' :: value) '=' 2 = none := by
      apply find_none_of_not_mem
      have : List.drop 2 (['-', '-'] ++ name ++ ':' :: value) = name ++ ':' :: value := by simp
      rw [this]
      simp [heq, hv]
    exact shape ':' _ (by rw [hnone, hfc]) rfl

/-- C1 witness: the override `--a=b` and `--a:b` on the empty configuration. -/
theorem applyOverride_sets_value_witness :
    (taskd_applyOverride [] ("--".toList ++ "a".toList ++ '=' :: "b".toList)
        = .ok (true, Config.set [] "a".toList "b".toList,
               "- Override ".toList ++ "a".toList ++ ['='] ++ "b".toList ++ "\n".toList)
      ∧ (Config.set [] "a".toList "b".toList).get "a".toList = "b".toList)
    ∧ (∃ cfg out, taskd_applyOverride [] ("--".toList ++ "a".toList ++ ':' :: "b".toList)
        = .ok (true, cfg, out))
    ∧ ('=' ∉ "b".toList →
        taskd_applyOverride [] ("--".toList ++ "a".toList ++ ':' :: "b".toList)
          = .ok (true, Config.set [] "a".toList "b".toList,
                 "- Override ".toList ++ "a".toList ++ ['='] ++ "b".toList ++ "\n".toList)) :=
  applyOverride_sets_value [] "a".toList "b".toList (by decide) (by decide) (by decide)

theorem find_here (s : Str) (c : Char) (pos : Nat) (h : s[pos]? = some c) :
    find s c pos = some pos := by
  obtain ⟨hlt, hc⟩ := List.getElem?_eq_some_iff.mp h
  have hd : s.drop pos = c :: s.drop (pos + 1) := by
    rw [List.drop_eq_getElem_cons hlt, hc]
  simp [find, hd]

/-- C2 (as stated, refuted): in `--:a=b` a separator `:` immediately follows
the prefix, yet the call returns true and stores `b` under the name `:a`. -/
theorem applyOverride_empty_name_counterexample :
    ("--:a=b".toList)[2]? = some ':'
      ∧ taskd_applyOverride [] "--:a=b".toList
          = .ok (true, [(":a".toList, "b".toList)], "- Override :a=b\n".toList) := by
  constructor
  · rfl
  · rfl

/-- C2 (amended): an argument that does not begin with `--`, or has neither
`=` nor `:` after the prefix, or has `=` right after the prefix, or has `:`
right after the prefix and no `=` after the prefix, is rejected: the call
returns false, does not raise, writes nothing and leaves the configuration as
it was. -/
theorem applyOverride_rejects (config : Config) (arg : Str)
    (h : ¬ ("--".toList <+: arg)
          ∨ ('=' ∉ arg.drop 2 ∧ ':' ∉ arg.drop 2)
          ∨ arg[2]? = some '='
          ∨ (arg[2]? = some ':' ∧ '=' ∉ arg.drop 2)) :
    taskd_applyOverride config arg = .ok (false, config, []) := by
  rcases h with h | ⟨h1, h2⟩ | h | ⟨h1, h2⟩
  · apply applyOverride_of_no_dashes
    intro ht
    apply h
    have hd' : "--".toList = ['-', '-'] := rfl
    rw [hd', ← ht]
    exact List.take_prefix 2 arg
  · apply applyOverride_of_no_sep
    rw [find_none_of_not_mem _ _ _ h1, find_none_of_not_mem _ _ _ h2]
  · apply applyOverride_of_sep_le config arg 2
    · rw [find_here _ _ _ h]
    · omega
  · apply applyOverride_of_sep_le config arg 2
    · rw [find_none_of_not_mem _ _ _ h2, find_here _ _ _ h1]
    · omega

/-- C2 witness: the positional argument `server` is rejected. -/
theorem applyOverride_rejects_witness :
    taskd_applyOverride [("a".toList, "b".toList)] "server".toList
      = .ok (false, [("a".toList, "b".toList)], []) :=
  applyOverride_rejects [("a".toList, "b".toList)] "server".toList (Or.inl (by decide))

theorem taskd_execute_ok (env : Env) (history : History) (command output text : Str)
    (status : Int) (hp : env.popen history command = some (text, status)) :
    taskd_execute env history command output
      = .ok (status, text, history ++ [⟨command, text, status⟩]) := by
  simp only [taskd_execute, hp, List.nil_append]

theorem answered_cons (env : Env) (history : History) (r : Run) (rest : List Run)
    (hp : env.popen history r.command = some (r.output, r.status))
    (ha : answered env (history ++ [r]) rest = true) :
    answered env history (r :: rest) = true := by
  simp only [answered, hp, decide_True, Bool.true_and, ha]

theorem runHookLoop_spec (env : Env) (hook arguments : Str)
    (H : ∀ h c, (env.popen h c).isSome) :
    ∀ (hs : List Str) (log : Log) (history : History),
      ∃ st log1 runs,
        runHookLoop env hook arguments hs 0 log history = .ok (st, log1, history ++ runs)
        ∧ answered env history runs = true
        ∧ runs.map Run.command <+: hookCommands env arguments hs
        ∧ (((∀ r ∈ runs, r.status = 0)
              ∧ runs.map Run.command = hookCommands env arguments hs ∧ st = 0)
            ∨ (∃ init last, runs = init ++ [last] ∧ (∀ r ∈ init, r.status = 0)
                ∧ last.status ≠ 0 ∧ st = last.status)) := by
  intro hs
  induction hs with
  | nil =>
    intro log history
    exact ⟨0, log, [], by simp [runHookLoop], rfl, by simp [hookCommands],
      Or.inl ⟨by simp, by simp [hookCommands], rfl⟩⟩
  | cons h rest ih =>
    intro log history
    by_cases hr : runnable env h = true
    · have hr' : (env.executable h || containsStr "taskd ".toList h) = true := hr
      obtain ⟨⟨text, st1⟩, hp⟩ :=
        Option.isSome_iff_exists.mp (H history (h ++ " ".toList ++ arguments))
      have hcmds : hookCommands env arguments (h :: rest)
          = (h ++ " ".toList ++ arguments) :: hookCommands env arguments rest := by
        simp [hookCommands, List.filter_cons, hr]
      by_cases h0 : st1 = 0
      · subst h0
        obtain ⟨st, log1, runs, he, ha, hpre, hcase⟩ :=
          ih ((log.write (hook ++ ": ".toList ++ (h ++ " ".toList ++ arguments))).write text)
            (history ++ [⟨h ++ " ".toList ++ arguments, text, 0⟩])
        refine ⟨st, log1, ⟨h ++ " ".toList ++ arguments, text, 0⟩ :: runs, ?_, ?_, ?_, ?_⟩
        · rw [runHookLoop, if_pos hr']
          simp only [taskd_execute_ok _ _ _ _ _ _ hp, ne_eq, not_true_eq_false, if_false]
          rw [he, List.append_assoc]; rfl
        · exact answered_cons _ _ _ _ hp ha
        · rw [hcmds]; simpa using hpre
        · rcases hcase with ⟨hz, hall, hst⟩ | ⟨init, last, hruns, hz, hl, hst⟩
          · left
            refine ⟨?_, by rw [hcmds]; simp [hall], hst⟩
            intro r hrm
            rcases List.mem_cons.mp hrm with rfl | hrm
            · rfl
            · exact hz r hrm
          · right
            refine ⟨⟨h ++ " ".toList ++ arguments, text, 0⟩ :: init, last, by simp [hruns], ?_, hl, hst⟩
            intro r hrm
            rcases List.mem_cons.mp hrm with rfl | hrm
            · rfl
            · exact hz r hrm
      · refine ⟨st1, (log.write (hook ++ ": ".toList ++ (h ++ " ".toList ++ arguments))).write text,
          [⟨h ++ " ".toList ++ arguments, text, st1⟩], ?_, ?_, ?_, ?_⟩
        · rw [runHookLoop, if_pos hr']
          simp only [taskd_execute_ok _ _ _ _ _ _ hp, ne_eq, h0, not_false_eq_true, if_true]
        · exact answered_cons _ _ _ _ hp rfl
        · rw [hcmds]; simp
        · right
          exact ⟨[], _, rfl, by simp, h0, rfl⟩
    · have hr' : ¬ (env.executable h || containsStr "taskd ".toList h) = true := hr
      have hcmds : hookCommands env arguments (h :: rest) = hookCommands env arguments rest := by
        simp [hookCommands, List.filter_cons, hr]
      obtain ⟨st, log1, runs, he, ha, hpre, hcase⟩ :=
        ih (log.write ("ERROR: Hook '".toList ++ hook ++ "' script '".toList ++ h
              ++ "' not executable.".toList)) history
      refine ⟨st, log1, runs, ?_, ha, by rw [hcmds]; exact hpre, by rw [hcmds]; exact hcase⟩
      rw [runHookLoop, if_neg hr']
      exact he

/-- C3: `taskd_runHook` runs the runnable scripts of the configured list in
list order. When every pipe can be opened, the runs form a prefix of the
runnable scripts' command lines and either all of them ran, all exited 0 and
the result is 0, or the last run is the first that exited non-zero and its
status is the result. In particular, with scripts `[A, B, C]` where `A` exits 0
and `B` exits non-zero, only `A` and `B` are run and `B`'s status is returned. -/
theorem runHook_stops_at_first_failure (env : Env) (hook arguments : Str) (log : Log)
    (config : Config) (history : History) :
    ((∀ h c, (env.popen h c).isSome) →
      ∃ st log1 runs,
        taskd_runHook env hook arguments log config history
          = .ok (st, log1, history ++ runs)
        ∧ answered env history runs = true
        ∧ runs.map Run.command <+: hookCommands env arguments (split (config.get hook) ',')
        ∧ (((∀ r ∈ runs, r.status = 0)
              ∧ runs.map Run.command
                  = hookCommands env arguments (split (config.get hook) ',')
              ∧ st = 0)
            ∨ (∃ init last, runs = init ++ [last] ∧ (∀ r ∈ init, r.status = 0)
                ∧ last.status ≠ 0 ∧ st = last.status)))
    ∧ (∀ (A B C oa ob : Str) (sb : Int),
        split (config.get hook) ',' = [A, B, C] →
        runnable env A = true → runnable env B = true →
        env.popen history (A ++ " ".toList ++ arguments) = some (oa, 0) →
        env.popen (history ++ [⟨A ++ " ".toList ++ arguments, oa, 0⟩])
            (B ++ " ".toList ++ arguments) = some (ob, sb) →
        sb ≠ 0 →
        taskd_runHook env hook arguments log config history
          = .ok (sb,
              (((log.write (hook ++ ": ".toList ++ (A ++ " ".toList ++ arguments))).write oa).write
                (hook ++ ": ".toList ++ (B ++ " ".toList ++ arguments))).write ob,
              history ++ [⟨A ++ " ".toList ++ arguments, oa, 0⟩,
                          ⟨B ++ " ".toList ++ arguments, ob, sb⟩])) := by
  constructor
  · intro H
    by_cases hs : config.get hook = []
    · refine ⟨0, log, [], ?_, rfl, by simp, Or.inl ⟨by simp, ?_, rfl⟩⟩
      · simp [taskd_runHook, hs]
      · simp [hs, split, hookCommands]
    · obtain ⟨st, log1, runs, he, hrest⟩ :=
        runHookLoop_spec env hook arguments H (split (config.get hook) ',') log history
      refine ⟨st, log1, runs, ?_, hrest⟩
      simp only [taskd_runHook, ne_eq, hs, not_false_eq_true, if_true]
      exact he
  · intro A B C oa ob sb hsplit hA hB hpA hpB hsb
    have hA' : (env.executable A || containsStr "taskd ".toList A) = true := hA
    have hB' : (env.executable B || containsStr "taskd ".toList B) = true := hB
    have hs : config.get hook ≠ [] := by
      intro h
      rw [h] at hsplit
      simp [split] at hsplit
    simp only [taskd_runHook, ne_eq, hs, not_false_eq_true, if_true, hsplit]
    rw [runHookLoop, if_pos hA']
    simp only [taskd_execute_ok _ _ _ _ _ _ hpA, ne_eq, not_true_eq_false, if_false]
    rw [runHookLoop, if_pos hB']
    simp only [taskd_execute_ok _ _ _ _ _ _ hpB, ne_eq, hsb, not_false_eq_true, if_true]
    simp

/-- C3 witness: in the demo world the hook list `A,B,C` runs `A` (status 0),
then `B` (status 3), and stops: `C` is not run and the result is 3. -/
theorem runHook_stops_at_first_failure_witness :
    (∃ st log1 runs,
        taskd_runHook demoEnv "h".toList "x".toList [] [("h".toList, "A,B,C".toList)] []
          = .ok (st, log1, [] ++ runs)
        ∧ answered demoEnv [] runs = true
        ∧ runs.map Run.command
            <+: hookCommands demoEnv "x".toList
                  (split (Config.get [("h".toList, "A,B,C".toList)] "h".toList) ',')
        ∧ (((∀ r ∈ runs, r.status = 0)
              ∧ runs.map Run.command
                  = hookCommands demoEnv "x".toList
                      (split (Config.get [("h".toList, "A,B,C".toList)] "h".toList) ',')
              ∧ st = 0)
            ∨ (∃ init last, runs = init ++ [last] ∧ (∀ r ∈ init, r.status = 0)
                ∧ last.status ≠ 0 ∧ st = last.status)))
    ∧ (taskd_runHook demoEnv "h".toList "x".toList [] [("h".toList, "A,B,C".toList)] []
          = .ok (3,
              (((Log.write [] ("h".toList ++ ": ".toList
                    ++ ("A".toList ++ " ".toList ++ "x".toList))).write "foo: bar\n".toList).write
                ("h".toList ++ ": ".toList ++ ("B".toList ++ " ".toList ++ "x".toList))).write
                "no".toList,
              [] ++ [⟨"A".toList ++ " ".toList ++ "x".toList, "foo: bar\n".toList, 0⟩,
                     ⟨"B".toList ++ " ".toList ++ "x".toList, "no".toList, 3⟩])) :=
  ⟨(runHook_stops_at_first_failure demoEnv "h".toList "x".toList []
      [("h".toList, "A,B,C".toList)] []).1
      (fun _ c => by simp only [demoEnv]; split <;> rfl),
   (runHook_stops_at_first_failure demoEnv "h".toList "x".toList []
      [("h".toList, "A,B,C".toList)] []).2
      "A".toList "B".toList "C".toList "foo: bar\n".toList "no".toList 3
      (by rfl) (by rfl) (by rfl) (by rfl) (by rfl) (by decide)⟩

theorem take_indexOf (c : Char) (l : Str) :
    l.take (l.indexOf c) = l.takeWhile (· != c) := by
  induction l with
  | nil => simp
  | cons a t ih =>
    by_cases h : a = c
    · subst h; simp
    · rw [List.indexOf_cons_ne _ h, List.take_succ_cons, ih]
      simp [List.takeWhile_cons, h]

theorem drop_indexOf_succ (c : Char) (l : Str) :
    l.drop (l.indexOf c + 1) = (l.dropWhile (· != c)).drop 1 := by
  induction l with
  | nil => simp
  | cons a t ih =>
    by_cases h : a = c
    · subst h; simp
    · rw [List.indexOf_cons_ne _ h, List.drop_succ_cons, ih]
      simp [List.dropWhile_cons, h]

theorem find_zero_none (s : Str) (c : Char) (h : find s c 0 = none) : c ∉ s := by
  intro hm
  have := List.indexOf_lt_length.mpr hm
  simp [find, this] at h

theorem find_zero_some (s : Str) (c : Char) (e : Nat) (h : find s c 0 = some e) :
    e = s.indexOf c ∧ e < s.length ∧ c ∈ s := by
  unfold find at h
  simp only [List.drop_zero, Nat.zero_add] at h
  split at h
  · rename_i hlt
    simp only [Option.some.injEq] at h
    exact ⟨h.symm, h ▸ hlt, List.indexOf_lt_length.mp hlt⟩
  · simp at h

/-- One line of plugin output is handled as the specification says, and the
handling never throws. -/
theorem parseLine_spec (env : Env) (verbose : Bool) (line : Str) (config : Config)
    (cout : Str) :
    ∃ cout1, parseLine env verbose line config cout
      = .ok (spec_handleLine line config, cout1) := by
  cases hf : find line ':' 0 with
  | none =>
    have hm := find_zero_none _ _ hf
    exact ⟨cout, by simp [parseLine, hf, spec_handleLine, hm]⟩
  | some colon =>
    obtain ⟨he, hlt, hm⟩ := find_zero_some _ _ _ hf
    have h1 : ¬ (0 > line.length) := by omega
    have h2 : ¬ (colon + 1 > line.length) := by omega
    have ht : line.take colon = line.takeWhile (· != ':') := by
      rw [he]; exact take_indexOf _ _
    have hd : line.drop (colon + 1) = (line.dropWhile (· != ':')).drop 1 := by
      rw [he]; exact drop_indexOf_succ _ _
    by_cases hw : trim (line.takeWhile (· != ':')) = "WARNING".toList
    · simp only [parseLine, hf, substr, h1, h2, if_false, bind, Except.bind, pure, Except.pure,
        List.drop_zero, ht, hd, hw, if_true, spec_handleLine, hm]
      exact ⟨_, rfl⟩
    · simp only [parseLine, hf, substr, h1, h2, if_false, bind, Except.bind, pure, Except.pure,
        List.drop_zero, ht, hd, hw, if_true, spec_handleLine, hm]
      exact ⟨_, rfl⟩

theorem parseLines_spec (env : Env) (verbose : Bool) :
    ∀ (lines : List Str) (config : Config) (cout : Str),
      ∃ cout1, parseLines env verbose lines config cout
        = .ok (lines.foldl (fun c line => spec_handleLine line c) config, cout1) := by
  intro lines
  induction lines with
  | nil => intro config cout; exact ⟨cout, rfl⟩
  | cons line rest ih =>
    intro config cout
    obtain ⟨cout1, h1⟩ := parseLine_spec env verbose line config cout
    obtain ⟨cout2, h2⟩ := ih (spec_handleLine line config) cout1
    exact ⟨cout2, by simp only [parseLines, h1, h2, List.foldl_cons]⟩

theorem runExtensionLoop_spec (env : Env) (arguments : Str) (verbose : Bool)
    (H : ∀ h c, (env.popen h c).isSome) :
    ∀ (paths : List Str) (status : Int) (config : Config) (cout : Str) (history : History),
      ∃ st config1 cout1 runs,
        runExtensionLoop env arguments verbose paths status config cout history
          = .ok (st, config1, cout1, history ++ runs)
        ∧ answered env history runs = true
        ∧ runs.map Run.command <+: extensionCommands env arguments paths
        ∧ (((∀ r ∈ runs, r.status ≠ 0)
              ∧ runs.map Run.command = extensionCommands env arguments paths
              ∧ st = (runs.getLast?.map Run.status).getD status
              ∧ config1 = config)
            ∨ (∃ init last, runs = init ++ [last] ∧ (∀ r ∈ init, r.status ≠ 0)
                ∧ last.status = 0 ∧ st = 0
                ∧ config1 = spec_handleOutput last.output config)) := by
  intro paths
  induction paths with
  | nil =>
    intro status config cout history
    exact ⟨status, config, cout, [], by simp [runExtensionLoop], rfl,
      by simp [extensionCommands], Or.inl ⟨by simp, by simp [extensionCommands], rfl, rfl⟩⟩
  | cons p rest ih =>
    intro status config cout history
    by_cases hx : env.executable p = true
    · obtain ⟨⟨text, st1⟩, hp⟩ :=
        Option.isSome_iff_exists.mp (H history (p ++ " ".toList ++ arguments))
      have hcmds : extensionCommands env arguments (p :: rest)
          = (p ++ " ".toList ++ arguments) :: extensionCommands env arguments rest := by
        simp [extensionCommands, List.filter_cons, hx]
      by_cases h0 : st1 = 0
      · subst h0
        obtain ⟨cout2, hparse⟩ := parseLines_spec env verbose (split text '\n') config
          (if verbose then
              cout ++ "- taskd_runExtension ".toList ++ (p ++ " ".toList ++ arguments)
                ++ "\n".toList
            else cout)
        refine ⟨0, spec_handleOutput text config, cout2,
          [⟨p ++ " ".toList ++ arguments, text, 0⟩], ?_, ?_, ?_, ?_⟩
        · rw [runExtensionLoop, if_pos hx]
          simp only [taskd_execute_ok _ _ _ _ _ _ hp, if_true, hparse]
          rfl
        · exact answered_cons _ _ _ _ hp rfl
        · rw [hcmds]; simp
        · right
          exact ⟨[], _, rfl, by simp, rfl, rfl, rfl⟩
      · obtain ⟨st, config1, cout1, runs, he, ha, hpre, hcase⟩ :=
          ih st1 config
            (if verbose then
                cout ++ "- taskd_runExtension ".toList ++ (p ++ " ".toList ++ arguments)
                  ++ "\n".toList
              else cout)
            (history ++ [⟨p ++ " ".toList ++ arguments, text, st1⟩])
        refine ⟨st, config1, cout1, ⟨p ++ " ".toList ++ arguments, text, st1⟩ :: runs,
          ?_, ?_, ?_, ?_⟩
        · rw [runExtensionLoop, if_pos hx]
          simp only [taskd_execute_ok _ _ _ _ _ _ hp, h0, if_false]
          rw [he]; simp
        · exact answered_cons _ _ _ _ hp ha
        · rw [hcmds]; simpa using hpre
        · rcases hcase with ⟨hz, hall, hst, hc⟩ | ⟨init, last, hruns, hz, hl, hst, hc⟩
          · left
            refine ⟨?_, by rw [hcmds]; simp [hall], ?_, hc⟩
            · intro r hrm
              rcases List.mem_cons.mp hrm with rfl | hrm
              · exact h0
              · exact hz r hrm
            · rw [hst]
              cases runs with
              | nil => rfl
              | cons x xs =>
                rw [List.getLast?_cons_cons, List.getLast?_eq_getLast _ (List.cons_ne_nil x xs)]
                rfl
          · right
            refine ⟨⟨p ++ " ".toList ++ arguments, text, st1⟩ :: init, last, by simp [hruns],
              ?_, hl, hst, hc⟩
            intro r hrm
            rcases List.mem_cons.mp hrm with rfl | hrm
            · exact h0
            · exact hz r hrm
    · have hcmds : extensionCommands env arguments (p :: rest)
          = extensionCommands env arguments rest := by
        simp [extensionCommands, List.filter_cons, hx]
      obtain ⟨st, config1, cout1, runs, he, hrest⟩ := ih status config cout history
      refine ⟨st, config1, cout1, runs, ?_, by rw [hcmds]; exact hrest⟩
      rw [runExtensionLoop, if_neg hx]
      exact he

theorem runExtension_of_loop (env : Env) (pattern arguments : Str) (config : Config)
    (verbose : Bool) (history : History) (st : Int) (config1 : Config) (cout1 : Str)
    (history1 : History)
    (he : runExtensionLoop env arguments verbose
            (env.glob (config.get "extensions".toList ++ "/".toList ++ pattern)) 0 config []
            history = .ok (st, config1, cout1, history1)) :
    ∃ cout2, taskd_runExtension env pattern arguments config verbose history
      = .ok (st, config1, cout2, history1) := by
  simp only [taskd_runExtension, he]
  split
  · exact ⟨_, rfl⟩
  · exact ⟨_, rfl⟩

/-- C4: when every pipe can be opened, the configuration-parsing
`taskd_runExtension` runs executable glob matches in glob order, each as
`match + " " + arguments`: the runs form a prefix of the executable matches'
command lines, and either the last run is the first that exited 0 and the
result is 0, or every executable match was run, none exited 0, and the result
is the status of the last run, or 0 when nothing was run. -/
theorem runExtension_stops_at_first_success (env : Env) (pattern arguments : Str)
    (config : Config) (verbose : Bool) (history : History)
    (H : ∀ h c, (env.popen h c).isSome) :
    ∃ st config1 cout1 runs,
      taskd_runExtension env pattern arguments config verbose history
        = .ok (st, config1, cout1, history ++ runs)
      ∧ answered env history runs = true
      ∧ runs.map Run.command
          <+: extensionCommands env arguments
                (env.glob (config.get "extensions".toList ++ "/".toList ++ pattern))
      ∧ ((∃ init last, runs = init ++ [last] ∧ (∀ r ∈ init, r.status ≠ 0)
            ∧ last.status = 0 ∧ st = 0)
          ∨ ((∀ r ∈ runs, r.status ≠ 0)
              ∧ runs.map Run.command
                  = extensionCommands env arguments
                      (env.glob (config.get "extensions".toList ++ "/".toList ++ pattern))
              ∧ st = (runs.getLast?.map Run.status).getD 0)) := by
  obtain ⟨st, config1, cout1, runs, he, ha, hpre, hcase⟩ :=
    runExtensionLoop_spec env arguments verbose H
      (env.glob (config.get "extensions".toList ++ "/".toList ++ pattern)) 0 config [] history
  have hshape : (∃ init last, runs = init ++ [last] ∧ (∀ r ∈ init, r.status ≠ 0)
            ∧ last.status = 0 ∧ st = 0)
          ∨ ((∀ r ∈ runs, r.status ≠ 0)
              ∧ runs.map Run.command
                  = extensionCommands env arguments
                      (env.glob (config.get "extensions".toList ++ "/".toList ++ pattern))
              ∧ st = (runs.getLast?.map Run.status).getD 0) := by
    rcases hcase with ⟨hz, hall, hst, _⟩ | ⟨init, last, hruns, hz, hl, hst, _⟩
    · exact Or.inr ⟨hz, hall, hst⟩
    · exact Or.inl ⟨init, last, hruns, hz, hl, hst⟩
  obtain ⟨cout2, hrun⟩ := runExtension_of_loop env pattern arguments config verbose history
    st config1 cout1 _ he
  exact ⟨st, config1, cout2, runs, hrun, ha, hpre, hshape⟩

/-- C4 witness: in the demo world the plugin `/ext/p1` exits 3 and `/ext/p2`
exits 0. -/
theorem runExtension_stops_at_first_success_witness :
    ∃ st config1 cout1 runs,
      taskd_runExtension demoEnv "p*".toList "x".toList [] false []
        = .ok (st, config1, cout1, [] ++ runs)
      ∧ answered demoEnv [] runs = true
      ∧ runs.map Run.command
          <+: extensionCommands demoEnv "x".toList
                (demoEnv.glob (Config.get [] "extensions".toList ++ "/".toList ++ "p*".toList))
      ∧ ((∃ init last, runs = init ++ [last] ∧ (∀ r ∈ init, r.status ≠ 0)
            ∧ last.status = 0 ∧ st = 0)
          ∨ ((∀ r ∈ runs, r.status ≠ 0)
              ∧ runs.map Run.command
                  = extensionCommands demoEnv "x".toList
                      (demoEnv.glob
                        (Config.get [] "extensions".toList ++ "/".toList ++ "p*".toList))
              ∧ st = (runs.getLast?.map Run.status).getD 0)) :=
  runExtension_stops_at_first_success demoEnv "p*".toList "x".toList [] false []
    (fun _ c => by simp only [demoEnv]; split <;> rfl)

theorem spec_handleLine_keeps_warning (line : Str) (config : Config) :
    (spec_handleLine line config).get "WARNING".toList = config.get "WARNING".toList := by
  unfold spec_handleLine
  by_cases hm : ':' ∈ line
  · by_cases hw : trim (line.takeWhile (· != ':')) = "WARNING".toList
    · simp only [hm, hw, if_true]
    · simp only [hm, hw, if_true, if_false]
      exact Config.get_set_other _ _ _ _ hw
  · simp only [hm, if_false]

theorem foldl_handleLine_keeps_warning (lines : List Str) :
    ∀ config : Config,
      (lines.foldl (fun c line => spec_handleLine line c) config).get "WARNING".toList
        = config.get "WARNING".toList := by
  induction lines with
  | nil => intro config; rfl
  | cons line rest ih =>
    intro config
    rw [List.foldl_cons, ih, spec_handleLine_keeps_warning]

theorem spec_handleOutput_example (config : Config) :
    spec_handleOutput "WARNING: disk low\nfoo: bar\n".toList config
      = config.set "foo".toList "bar".toList := by
  have hsplit : split "WARNING: disk low\nfoo: bar\n".toList '\n'
      = ["WARNING: disk low".toList, "foo: bar".toList, []] := by rfl
  have h1 : spec_handleLine "WARNING: disk low".toList config = config := by
    have hm : ':' ∈ "WARNING: disk low".toList := by decide
    have hn : trim (("WARNING: disk low".toList).takeWhile (· != ':')) = "WARNING".toList := by
      rfl
    simp only [spec_handleLine, hm, hn, if_true]
  have h2 : spec_handleLine "foo: bar".toList config = config.set "foo".toList "bar".toList := by
    have hm : ':' ∈ "foo: bar".toList := by decide
    have hn : trim (("foo: bar".toList).takeWhile (· != ':')) = "foo".toList := by rfl
    have hv : trim ((("foo: bar".toList).dropWhile (· != ':')).drop 1) = "bar".toList := by rfl
    have hne : ¬ ("foo".toList = "WARNING".toList) := by decide
    simp only [spec_handleLine, hm, hn, hv, hne, if_true, if_false]
  have h3 : ∀ c : Config, spec_handleLine [] c = c := by
    intro c
    simp [spec_handleLine]
  simp only [spec_handleOutput, hsplit, List.foldl_cons, List.foldl_nil, h1, h2, h3]

/-- When the first glob match is executable and exits 0, the call runs it
alone and returns the configuration given by the handling of its output. -/
theorem runExtension_first_plugin_zero (env : Env) (pattern arguments : Str)
    (config : Config) (verbose : Bool) (history : History) (p : Str) (rest : List Str)
    (text : Str)
    (hglob : env.glob (config.get "extensions".toList ++ "/".toList ++ pattern) = p :: rest)
    (hx : env.executable p = true)
    (hp : env.popen history (p ++ " ".toList ++ arguments) = some (text, 0)) :
    ∃ cout1, taskd_runExtension env pattern arguments config verbose history
      = .ok (0, spec_handleOutput text config, cout1,
          history ++ [⟨p ++ " ".toList ++ arguments, text, 0⟩]) := by
  obtain ⟨cout2, hparse⟩ := parseLines_spec env verbose (split text '\n') config
    (if verbose then
        [] ++ "- taskd_runExtension ".toList ++ (p ++ " ".toList ++ arguments)
          ++ "\n".toList
      else [])
  have hloop : runExtensionLoop env arguments verbose
      (env.glob (config.get "extensions".toList ++ "/".toList ++ pattern)) 0 config []
      history
      = .ok (0, spec_handleOutput text config, cout2,
          history ++ [⟨p ++ " ".toList ++ arguments, text, 0⟩]) := by
    rw [hglob, runExtensionLoop, if_pos hx]
    simp only [taskd_execute_ok _ _ _ _ _ _ hp, if_true, hparse]
    rfl
  exact runExtension_of_loop env pattern arguments config verbose history 0 _ cout2 _ hloop

/-- C5: the text captured from the first zero-exit plugin is handled line by
line as the specification says. When every pipe can be opened, the runs of
`taskd_runExtension` are what the world answers, in glob order, and either the
last run is the first to exit 0 and the returned configuration is
`spec_handleOutput` of its output on the given configuration, or no run exits
0, every executable match was run and the configuration is the given one. When
the first match is executable and exits 0 printing `text`, the returned
configuration is `spec_handleOutput text`; when that text is
`"WARNING: disk low\nfoo: bar\n"`, `config["WARNING"]` is as it was and
`config["foo"] == "bar"`. The code's handling of one line and of all lines
agrees with `spec_handleLine` and `spec_handleOutput` and never throws, and no
output changes `config["WARNING"]`. -/
theorem runExtension_handles_output (env : Env) (pattern arguments : Str)
    (config : Config) (verbose : Bool) (history : History) :
    ((∀ h c, (env.popen h c).isSome) →
      ∃ st config1 cout1 runs,
        taskd_runExtension env pattern arguments config verbose history
          = .ok (st, config1, cout1, history ++ runs)
        ∧ answered env history runs = true
        ∧ runs.map Run.command
            <+: extensionCommands env arguments
                  (env.glob (config.get "extensions".toList ++ "/".toList ++ pattern))
        ∧ ((∃ init last, runs = init ++ [last] ∧ (∀ r ∈ init, r.status ≠ 0)
              ∧ last.status = 0 ∧ st = 0
              ∧ config1 = spec_handleOutput last.output config)
            ∨ ((∀ r ∈ runs, r.status ≠ 0)
                ∧ runs.map Run.command
                    = extensionCommands env arguments
                        (env.glob (config.get "extensions".toList ++ "/".toList ++ pattern))
                ∧ config1 = config)))
    ∧ (∀ (p : Str) (rest : List Str) (text : Str),
        env.glob (config.get "extensions".toList ++ "/".toList ++ pattern) = p :: rest →
        env.executable p = true →
        env.popen history (p ++ " ".toList ++ arguments) = some (text, 0) →
        ∃ cout1, taskd_runExtension env pattern arguments config verbose history
          = .ok (0, spec_handleOutput text config, cout1,
              history ++ [⟨p ++ " ".toList ++ arguments, text, 0⟩]))
    ∧ (∀ (p : Str) (rest : List Str),
        env.glob (config.get "extensions".toList ++ "/".toList ++ pattern) = p :: rest →
        env.executable p = true →
        env.popen history (p ++ " ".toList ++ arguments)
          = some ("WARNING: disk low\nfoo: bar\n".toList, 0) →
        ∃ config1 cout1, taskd_runExtension env pattern arguments config verbose history
          = .ok (0, config1, cout1,
              history ++ [⟨p ++ " ".toList ++ arguments,
                           "WARNING: disk low\nfoo: bar\n".toList, 0⟩])
          ∧ config1.get "WARNING".toList = config.get "WARNING".toList
          ∧ config1.get "foo".toList = "bar".toList)
    ∧ (∀ line cout, ∃ cout1,
        parseLine env verbose line config cout = .ok (spec_handleLine line config, cout1))
    ∧ (∀ text cout, ∃ cout1,
        parseLines env verbose (split text '\n') config cout
          = .ok (spec_handleOutput text config, cout1))
    ∧ (∀ text,
        (spec_handleOutput text config).get "WARNING".toList = config.get "WARNING".toList) := by
  refine ⟨?_, ?_, ?_, ?_, ?_, ?_⟩
  · intro H
    obtain ⟨st, config1, cout1, runs, he, ha, hpre, hcase⟩ :=
      runExtensionLoop_spec env arguments verbose H
        (env.glob (config.get "extensions".toList ++ "/".toList ++ pattern)) 0 config []
        history
    obtain ⟨cout2, hrun⟩ := runExtension_of_loop env pattern arguments config verbose history
      st config1 cout1 _ he
    refine ⟨st, config1, cout2, runs, hrun, ha, hpre, ?_⟩
    rcases hcase with ⟨hz, hall, _, hc⟩ | ⟨init, last, hruns, hz, hl, hst, hc⟩
    · exact Or.inr ⟨hz, hall, hc⟩
    · exact Or.inl ⟨init, last, hruns, hz, hl, hst, hc⟩
  · intro p rest text hglob hx hp
    exact runExtension_first_plugin_zero env pattern arguments config verbose history p rest
      text hglob hx hp
  · intro p rest hglob hx hp
    obtain ⟨cout1, hrun⟩ := runExtension_first_plugin_zero env pattern arguments config
      verbose history p rest _ hglob hx hp
    refine ⟨_, cout1, hrun, ?_, ?_⟩
    · exact foldl_handleLine_keeps_warning _ config
    · rw [spec_handleOutput_example config]
      exact Config.get_set_self _ _ _
  · intro line cout
    exact parseLine_spec env verbose line config cout
  · intro text cout
    exact parseLines_spec env verbose (split text '\n') config cout
  · intro text
    exact foldl_handleLine_keeps_warning (split text '\n') config

/-- C5 witness: in the demo world `/ext/p1` exits 3 and `/ext/p2` is the first
plugin to exit 0; in the warning world the only plugin prints
`WARNING: disk low` and `foo: bar` and exits 0, which leaves `WARNING` at `w`
and sets `foo` to `bar`. -/
theorem runExtension_handles_output_witness :
    (∃ st config1 cout1 runs,
        taskd_runExtension demoEnv "p*".toList "x".toList [] false []
          = .ok (st, config1, cout1, [] ++ runs)
        ∧ answered demoEnv [] runs = true
        ∧ runs.map Run.command
            <+: extensionCommands demoEnv "x".toList
                  (demoEnv.glob (Config.get [] "extensions".toList ++ "/".toList
                    ++ "p*".toList))
        ∧ ((∃ init last, runs = init ++ [last] ∧ (∀ r ∈ init, r.status ≠ 0)
              ∧ last.status = 0 ∧ st = 0
              ∧ config1 = spec_handleOutput last.output [])
            ∨ ((∀ r ∈ runs, r.status ≠ 0)
                ∧ runs.map Run.command
                    = extensionCommands demoEnv "x".toList
                        (demoEnv.glob (Config.get [] "extensions".toList ++ "/".toList
                          ++ "p*".toList))
                ∧ config1 = [])))
    ∧ (∃ config1 cout1,
        taskd_runExtension warnEnv "p*".toList "x".toList [("WARNING".toList, "w".toList)]
            false []
          = .ok (0, config1, cout1,
              [] ++ [⟨"/ext/p1".toList ++ " ".toList ++ "x".toList,
                      "WARNING: disk low\nfoo: bar\n".toList, 0⟩])
        ∧ config1.get "WARNING".toList
            = Config.get [("WARNING".toList, "w".toList)] "WARNING".toList
        ∧ config1.get "foo".toList = "bar".toList) :=
  ⟨(runExtension_handles_output demoEnv "p*".toList "x".toList [] false []).1
      (fun _ c => by simp only [demoEnv]; split <;> rfl),
   (runExtension_handles_output warnEnv "p*".toList "x".toList
      [("WARNING".toList, "w".toList)] false []).2.2.1 "/ext/p1".toList [] rfl rfl rfl⟩

theorem rfind_none (s : Str) (c : Char) (h : c ∉ s) : rfind s c = none := by
  induction s with
  | nil => rfl
  | cons x xs ih =>
    have hx : ¬ x = c := fun e => h (e ▸ List.mem_cons_self x xs)
    have hxs : c ∉ xs := fun m => h (List.mem_cons_of_mem x m)
    simp only [rfind, ih hxs, hx, if_false]

theorem rfind_of_mem (s : Str) (c : Char) (h : c ∈ s) : ∃ i, rfind s c = some i := by
  cases hr : rfind s c with
  | some i => exact ⟨i, rfl⟩
  | none =>
    exfalso
    induction s with
    | nil => simp at h
    | cons x xs ih =>
      simp only [rfind] at hr
      cases hxs : rfind xs c with
      | some k => simp [hxs] at hr
      | none =>
        simp only [hxs] at hr
        by_cases hx : x = c
        · simp [hx] at hr
        · rcases List.mem_cons.mp h with e | m
          · exact hx e.symm
          · exact ih m hxs

theorem rfind_some (s : Str) (c : Char) :
    ∀ i, rfind s c = some i →
      i < s.length ∧ s.take i ++ c :: s.drop (i + 1) = s ∧ c ∉ s.drop (i + 1) := by
  induction s with
  | nil => intro i h; simp [rfind] at h
  | cons x xs ih =>
    intro i h
    cases hr : rfind xs c with
    | some j =>
      simp only [rfind, hr, Option.some.injEq] at h
      subst h
      obtain ⟨h1, h2, h3⟩ := ih j hr
      refine ⟨by simp; omega, ?_, ?_⟩
      · simp only [List.take_succ_cons, List.drop_succ_cons, List.cons_append, h2]
      · simpa using h3
    | none =>
      simp only [rfind, hr] at h
      by_cases hx : x = c
      · simp only [hx, if_true, Option.some.injEq] at h
        subst h
        subst hx
        refine ⟨by simp, by simp, ?_⟩
        intro hm
        have hm' : x ∈ xs := by simpa using hm
        obtain ⟨k, hk⟩ := rfind_of_mem xs x hm'
        rw [hr] at hk
        cases hk
      · simp [hx] at h

/-- With a colon in the destination, `taskd_sendMessage` reaches the `try`
block with the text before the last colon as server and the text after it as
port. -/
theorem sendMessage_split {M : Type} (ops : MsgOps M) (peer : Peer) (config : Config)
    (toName : Str) (out : M) (h : ':' ∈ config.get toName) :
    ∃ server port,
      server ++ ":".toList ++ port = config.get toName ∧ ':' ∉ port
      ∧ ∀ inMsg, taskd_sendMessage_in ops peer config toName out inMsg
          = (match exchange peer server port (ops.serialize out ++ "\n".toList) with
             | (.error _, calls) => (.ok false, inMsg, calls)
             | (.ok response, calls) =>
               match ops.parse inMsg response with
               | (inMsg1, .error _) => (.ok false, inMsg1, calls)
               | (inMsg1, .ok _) => (.ok true, inMsg1, calls)) := by
  obtain ⟨colon, hr⟩ := rfind_of_mem _ _ h
  obtain ⟨hlt, hsplit, hport⟩ := rfind_some _ _ colon hr
  have h1 : ¬ (0 > (config.get toName).length) := by omega
  have h2 : ¬ (colon + 1 > (config.get toName).length) := by omega
  refine ⟨(config.get toName).take colon, (config.get toName).drop (colon + 1), ?_, hport,
    ?_⟩
  · simpa using hsplit
  · intro inMsg
    simp only [taskd_sendMessage_in, hr, substr, h1, h2, if_false, List.drop_zero]

theorem exchange_calls (peer : Peer) (server port data : Str) :
    ∃ rest, (exchange peer server port data).2 = SocketCall.connect server port :: rest := by
  unfold exchange
  cases peer.connect server port with
  | error e => exact ⟨_, rfl⟩
  | ok u =>
    cases peer.write data with
    | error e => exact ⟨_, rfl⟩
    | ok u =>
      cases peer.read with
      | error e => exact ⟨_, rfl⟩
      | ok response =>
        cases peer.close with
        | error e => exact ⟨_, rfl⟩
        | ok u => exact ⟨_, rfl⟩

theorem exchange_ok_iff (peer : Peer) (server port data response : Str) :
    (exchange peer server port data).1 = .ok response
      ↔ (peer.connect server port = .ok () ∧ peer.write data = .ok ()
          ∧ peer.read = .ok response ∧ peer.close = .ok ()) := by
  unfold exchange
  cases peer.connect server port with
  | error e => simp
  | ok u =>
    cases peer.write data with
    | error e => simp
    | ok u =>
      cases peer.read with
      | error e => simp
      | ok r =>
        cases peer.close with
        | error e => simp
        | ok u => simp

/-- The flag computed by the `try` block: true exactly when the exchange and
the parse of the response both succeed. -/
theorem try_block_flag {M : Type} (ops : MsgOps M) (peer : Peer) (server port data : Str)
    (inMsg : M) :
    ∃ b inMsg1 calls,
      (match exchange peer server port data with
        | (.error _, calls) => ((.ok false : Except Exn Bool), inMsg, calls)
        | (.ok response, calls) =>
          match ops.parse inMsg response with
          | (inMsg1, .error _) => (.ok false, inMsg1, calls)
          | (inMsg1, .ok _) => (.ok true, inMsg1, calls)) = (.ok b, inMsg1, calls)
      ∧ (b = true ↔ ∃ response,
            peer.connect server port = .ok () ∧ peer.write data = .ok ()
            ∧ peer.read = .ok response ∧ peer.close = .ok ()
            ∧ (ops.parse inMsg response).2 = .ok ()) := by
  rcases hex : exchange peer server port data with ⟨r, calls⟩
  have hfst : (exchange peer server port data).1 = r := by rw [hex]
  cases r with
  | error e =>
    refine ⟨false, inMsg, calls, rfl, ?_⟩
    constructor
    · intro hb; cases hb
    · rintro ⟨response, hc, hw, hr, hcl, _⟩
      have := (exchange_ok_iff peer server port data response).mpr ⟨hc, hw, hr, hcl⟩
      rw [hfst] at this
      cases this
  | ok response =>
    have hsteps := (exchange_ok_iff peer server port data response).mp hfst
    rcases hp : ops.parse inMsg response with ⟨m, pr⟩
    cases pr with
    | error e =>
      refine ⟨false, m, calls, by simp only [hp], ?_⟩
      constructor
      · intro hb; cases hb
      · rintro ⟨response1, _, _, hr, _, hparse⟩
        rw [hsteps.2.2.1] at hr
        cases hr
        rw [hp] at hparse
        cases hparse
    | ok u =>
      refine ⟨true, m, calls, by simp only [hp], ?_⟩
      constructor
      · intro _
        exact ⟨response, hsteps.1, hsteps.2.1, hsteps.2.2.1, hsteps.2.2.2, by rw [hp]⟩
      · intro _; rfl

/-- The three-argument overload is the four-argument one run on a fresh
message whose final state is dropped. -/
theorem sendMessage_eq_in {M : Type} (ops : MsgOps M) (peer : Peer) (config : Config)
    (toName : Str) (out : M) :
    taskd_sendMessage ops peer config toName out
      = ((taskd_sendMessage_in ops peer config toName out ops.empty).1,
         (taskd_sendMessage_in ops peer config toName out ops.empty).2.2) := by
  simp only [taskd_sendMessage, taskd_sendMessage_in]
  cases hr : rfind (config.get toName) ':' with
  | none => rfl
  | some colon =>
    simp only
    cases hs : substr (config.get toName) 0 (some colon) with
    | error e => rfl
    | ok server =>
      cases hp : substr (config.get toName) (colon + 1) none with
      | error e => rfl
      | ok port =>
        simp only
        rcases hex : exchange peer server port (ops.serialize out ++ "\n".toList)
          with ⟨r, calls⟩
        cases r with
        | error e => rfl
        | ok response =>
          simp only
          rcases hp : ops.parse ops.empty response with ⟨m, pr⟩
          cases pr with
          | error e => rfl
          | ok u => rfl

/-- C6: when the destination value contains a colon, neither overload of
`taskd_sendMessage` raises, whatever the outcome of connect, write, read, close
and parse: each returns a flag, and the flag is true exactly when all five
steps succeed (with the destination split into server and port). -/
theorem sendMessage_never_raises {M : Type} (ops : MsgOps M) (peer : Peer) (config : Config)
    (toName : Str) (out inMsg : M) (h : ':' ∈ config.get toName) :
    ∃ server port,
      server ++ ":".toList ++ port = config.get toName ∧ ':' ∉ port
      ∧ (∃ b calls,
          taskd_sendMessage ops peer config toName out = (.ok b, calls)
          ∧ (b = true ↔ ∃ response,
                peer.connect server port = .ok ()
                ∧ peer.write (ops.serialize out ++ "\n".toList) = .ok ()
                ∧ peer.read = .ok response ∧ peer.close = .ok ()
                ∧ (ops.parse ops.empty response).2 = .ok ()))
      ∧ (∃ b inMsg1 calls,
          taskd_sendMessage_in ops peer config toName out inMsg = (.ok b, inMsg1, calls)
          ∧ (b = true ↔ ∃ response,
                peer.connect server port = .ok ()
                ∧ peer.write (ops.serialize out ++ "\n".toList) = .ok ()
                ∧ peer.read = .ok response ∧ peer.close = .ok ()
                ∧ (ops.parse inMsg response).2 = .ok ())) := by
  obtain ⟨server, port, hsplit, hport, h4⟩ := sendMessage_split ops peer config toName out h
  refine ⟨server, port, hsplit, hport, ?_, ?_⟩
  · obtain ⟨b, m, calls, heq, hiff⟩ :=
      try_block_flag ops peer server port (ops.serialize out ++ "\n".toList) ops.empty
    refine ⟨b, calls, ?_, hiff⟩
    rw [sendMessage_eq_in, h4 ops.empty, heq]
  · obtain ⟨b, m, calls, heq, hiff⟩ :=
      try_block_flag ops peer server port (ops.serialize out ++ "\n".toList) inMsg
    exact ⟨b, m, calls, by rw [h4 inMsg]; exact heq, hiff⟩

/-- C6 witness: the destination `localhost:6544` is unreachable; the call
returns a flag instead of raising. -/
theorem sendMessage_never_raises_witness :
    ∃ server port,
      server ++ ":".toList ++ port
          = Config.get [("server".toList, "localhost:6544".toList)] "server".toList
      ∧ ':' ∉ port
      ∧ (∃ b calls,
          taskd_sendMessage textMsg downPeer [("server".toList, "localhost:6544".toList)]
              "server".toList "hello".toList = (.ok b, calls)
          ∧ (b = true ↔ ∃ response,
                downPeer.connect server port = .ok ()
                ∧ downPeer.write (textMsg.serialize "hello".toList ++ "\n".toList) = .ok ()
                ∧ downPeer.read = .ok response ∧ downPeer.close = .ok ()
                ∧ (textMsg.parse textMsg.empty response).2 = .ok ()))
      ∧ (∃ b inMsg1 calls,
          taskd_sendMessage_in textMsg downPeer [("server".toList, "localhost:6544".toList)]
              "server".toList "hello".toList [] = (.ok b, inMsg1, calls)
          ∧ (b = true ↔ ∃ response,
                downPeer.connect server port = .ok ()
                ∧ downPeer.write (textMsg.serialize "hello".toList ++ "\n".toList) = .ok ()
                ∧ downPeer.read = .ok response ∧ downPeer.close = .ok ()
                ∧ (textMsg.parse [] response).2 = .ok ())) :=
  sendMessage_never_raises textMsg downPeer [("server".toList, "localhost:6544".toList)]
    "server".toList "hello".toList [] (by decide)

/-- C7: a destination with a colon is split at its last colon into host and
port, `host + ":" + port == destination` with no colon in the port, and these
are what both overloads of `taskd_sendMessage` connect to first; a destination
without a colon makes both overloads throw the configuration error without
any socket call. -/
theorem sendMessage_splits_destination {M : Type} (ops : MsgOps M) (peer : Peer)
    (config : Config) (toName : Str) (out inMsg : M) :
    (':' ∈ config.get toName →
      ∃ host port rest,
        host ++ ":".toList ++ port = config.get toName ∧ ':' ∉ port
        ∧ (taskd_sendMessage ops peer config toName out).2
            = SocketCall.connect host port :: rest
        ∧ (taskd_sendMessage_in ops peer config toName out inMsg).2.2
            = SocketCall.connect host port :: rest)
    ∧ (':' ∉ config.get toName →
        taskd_sendMessage ops peer config toName out
          = (.error (.str ("ERROR: Malformed configuration setting '".toList
                ++ config.get toName ++ "'".toList)), [])
        ∧ taskd_sendMessage_in ops peer config toName out inMsg
          = (.error (.str ("ERROR: Malformed configuration setting '".toList
                ++ config.get toName ++ "'".toList)), inMsg, [])) := by
  constructor
  · intro h
    obtain ⟨server, port, hsplit, hport, h4⟩ := sendMessage_split ops peer config toName out h
    obtain ⟨rest, hrest⟩ :=
      exchange_calls peer server port (ops.serialize out ++ "\n".toList)
    have hcalls : ∀ m : M, (taskd_sendMessage_in ops peer config toName out m).2.2
        = SocketCall.connect server port :: rest := by
      intro m
      rw [h4 m, ← hrest]
      rcases exchange peer server port (ops.serialize out ++ "\n".toList) with ⟨r, calls⟩
      cases r with
      | error e => rfl
      | ok response =>
        simp only
        rcases ops.parse m response with ⟨m1, pr⟩
        cases pr with
        | error e => rfl
        | ok u => rfl
    refine ⟨server, port, rest, hsplit, hport, ?_, hcalls inMsg⟩
    rw [sendMessage_eq_in]
    exact hcalls ops.empty
  · intro h
    have hr := rfind_none _ _ h
    constructor
    · simp only [taskd_sendMessage, hr]
    · simp only [taskd_sendMessage_in, hr]

/-- C7 witness: `localhost:6544` is split into `localhost` and `6544`, and the
destination `localhost` throws. -/
theorem sendMessage_splits_destination_witness :
    (∃ host port rest,
        host ++ ":".toList ++ port
            = Config.get [("server".toList, "localhost:6544".toList)] "server".toList
        ∧ ':' ∉ port
        ∧ (taskd_sendMessage textMsg downPeer [("server".toList, "localhost:6544".toList)]
              "server".toList "hello".toList).2
            = SocketCall.connect host port :: rest
        ∧ (taskd_sendMessage_in textMsg downPeer [("server".toList, "localhost:6544".toList)]
              "server".toList "hello".toList []).2.2
            = SocketCall.connect host port :: rest)
    ∧ (taskd_sendMessage textMsg downPeer [("server".toList, "localhost".toList)]
            "server".toList "hello".toList
          = (.error (.str ("ERROR: Malformed configuration setting '".toList
                ++ Config.get [("server".toList, "localhost".toList)] "server".toList
                ++ "'".toList)), [])
        ∧ taskd_sendMessage_in textMsg downPeer [("server".toList, "localhost".toList)]
            "server".toList "hello".toList []
          = (.error (.str ("ERROR: Malformed configuration setting '".toList
                ++ Config.get [("server".toList, "localhost".toList)] "server".toList
                ++ "'".toList)), [], [])) :=
  ⟨(sendMessage_splits_destination textMsg downPeer
      [("server".toList, "localhost:6544".toList)] "server".toList "hello".toList []).1
      (by decide),
   (sendMessage_splits_destination textMsg downPeer
      [("server".toList, "localhost".toList)] "server".toList "hello".toList []).2
      (by decide)⟩

/-- C8 (the code at the failing input): the table holds two entries with the
code 401; `taskd_error (401)` returns the reason of the first, `Failure`, so
the entry `(401, "Unsupported encoding")` is never returned. -/
theorem error_table_repeats_401 :
    ((401 : Int), "Failure".toList) ∈ errors
      ∧ ((401 : Int), "Unsupported encoding".toList) ∈ errors
      ∧ taskd_error 401 = "Failure".toList
      ∧ taskd_error 401 ≠ "Unsupported encoding".toList := by
  refine ⟨by decide, by decide, by rfl, by decide⟩

theorem errorLoop_missing (code : Int) (table : List (Int × Str))
    (h : code ∉ table.map Prod.fst) :
    errorLoop code table = "[Missing error code]".toList := by
  induction table with
  | nil => rfl
  | cons p rest ih =>
    obtain ⟨c, reason⟩ := p
    have hc : ¬ code = c := fun e => h (by simp [e])
    have hrest : code ∉ rest.map Prod.fst := fun m => h (by simp at m ⊢; exact Or.inr m)
    simp only [errorLoop, hc, if_false, ih hrest]

theorem errorLoop_present (code : Int) (table : List (Int × Str))
    (h : code ∈ table.map Prod.fst) :
    errorLoop code table ∈ table.map Prod.snd := by
  induction table with
  | nil => simp at h
  | cons p rest ih =>
    obtain ⟨c, reason⟩ := p
    by_cases hc : code = c
    · simp [errorLoop, hc]
    · have hrest : code ∈ rest.map Prod.fst := by
        simp only [List.map_cons, List.mem_cons] at h
        rcases h with e | m
        · exact absurd e hc
        · exact m
      simp only [errorLoop, hc, if_false, List.map_cons, List.mem_cons]
      exact Or.inr (ih hrest)

/-- C9: `taskd_error` is total; `taskd_error (200)` is `Ok`; every code that
is not the code of a table entry, such as 999999, 0 and -1, yields
`[Missing error code]`; and no code of the table yields it. -/
theorem taskd_error_total :
    taskd_error 200 = "Ok".toList
      ∧ (∀ code : Int, code ∉ errors.map Prod.fst →
          taskd_error code = "[Missing error code]".toList)
      ∧ taskd_error 999999 = "[Missing error code]".toList
      ∧ taskd_error 0 = "[Missing error code]".toList
      ∧ taskd_error (-1) = "[Missing error code]".toList
      ∧ (∀ code : Int, code ∈ errors.map Prod.fst →
          taskd_error code ≠ "[Missing error code]".toList) := by
  refine ⟨by rfl, ?_, by rfl, by rfl, by rfl, ?_⟩
  · intro code h
    exact errorLoop_missing code errors h
  · intro code h heq
    have hmem := errorLoop_present code errors h
    have hno : "[Missing error code]".toList ∉ errors.map Prod.snd := by decide
    unfold taskd_error at heq
    rw [heq] at hmem
    exact hno hmem

/-- C9 witness: 999999 is not in the table and 504 is. -/
theorem taskd_error_total_witness :
    taskd_error 999999 = "[Missing error code]".toList
      ∧ taskd_error 504 ≠ "[Missing error code]".toList :=
  ⟨taskd_error_total.2.1 999999 (by decide), taskd_error_total.2.2.2.2.2 504 (by decide)⟩

/-- Every run replaces the whole buffer: after the loop of the
output-accumulating `taskd_runExtension` the buffer is the output of the last
run alone, and the buffer given by the caller when nothing was run. -/
theorem runExtensionOutputLoop_last_output (env : Env) (arguments : Str) (config : Config)
    (H : ∀ h c, (env.popen h c).isSome) :
    ∀ (paths : List Str) (status : Int) (output : Str) (history : History),
      ∃ st runs,
        runExtensionOutputLoop env arguments config paths status output history
          = .ok (st, (runs.getLast?.map Run.output).getD output, history ++ runs) := by
  intro paths
  induction paths with
  | nil =>
    intro status output history
    exact ⟨status, [], by simp [runExtensionOutputLoop]⟩
  | cons p rest ih =>
    intro status output history
    by_cases hx : env.executable p = true
    · obtain ⟨⟨text, st1⟩, hp⟩ :=
        Option.isSome_iff_exists.mp (H history (p ++ " ".toList ++ arguments))
      by_cases h0 : st1 = 0
      · refine ⟨st1, [⟨p ++ " ".toList ++ arguments, text, st1⟩], ?_⟩
        rw [runExtensionOutputLoop, if_pos hx]
        simp only [taskd_execute_ok _ _ _ _ _ _ hp, h0, if_true]
        rfl
      · obtain ⟨st, runs, he⟩ := ih st1 text
          (history ++ [⟨p ++ " ".toList ++ arguments, text, st1⟩])
        refine ⟨st, ⟨p ++ " ".toList ++ arguments, text, st1⟩ :: runs, ?_⟩
        rw [runExtensionOutputLoop, if_pos hx]
        simp only [taskd_execute_ok _ _ _ _ _ _ hp, h0, if_false]
        rw [he]
        cases runs with
        | nil => simp
        | cons x xs =>
          rw [List.getLast?_cons_cons, List.getLast?_eq_getLast _ (List.cons_ne_nil x xs)]
          simp
    · obtain ⟨st, runs, he⟩ := ih status output history
      refine ⟨st, runs, ?_⟩
      rw [runExtensionOutputLoop, if_neg hx]
      exact he

/-- C10 (the code at the failing input): in the demo world, verbose, with the
buffer holding `before`, the plugin `/ext/p1` prints `no` and exits 3 and
`/ext/p2` prints `foo: bar` and exits 0. After the call the buffer is the
output of `/ext/p2` alone: the earlier content, both prefix lines and the
output of `/ext/p1` are gone. -/
theorem runExtension_output_loses_buffer :
    demoEnv.getBoolean [] "verbose".toList = true
      ∧ taskd_runExtension_output demoEnv "p*".toList "x".toList "before".toList [] []
          = .ok (0, "foo: bar\n".toList,
              [⟨"/ext/p1 x".toList, "no".toList, 3⟩,
               ⟨"/ext/p2 x".toList, "foo: bar\n".toList, 0⟩])
      ∧ "foo: bar\n".toList
          ≠ "before".toList
              ++ ("--- taskd_runExtension /ext/p1 x\n".toList ++ "no".toList)
              ++ ("--- taskd_runExtension /ext/p2 x\n".toList ++ "foo: bar\n".toList) := by
  refine ⟨rfl, by rfl, by decide⟩

/-- C11 (the code at the failing input): a message whose version header is
`0.9.0` passes `taskd_requireVersion` against the required `1.0.0`; since
`taskd_at_least` returns true for every pair, no message and no required
version ever raise. -/
theorem requireVersion_accepts_lower_version :
    oldMsg.get "version".toList = "0.9.0".toList
      ∧ taskd_requireVersion oldMsg "1.0.0".toList = .ok ()
      ∧ (∀ (message : Msg) (version : Str), taskd_requireVersion message version = .ok ()) := by
  refine ⟨by rfl, by rfl, ?_⟩
  intro message version
  rfl

/-- C12: when the glob yields no candidate paths, the configuration-parsing
`taskd_runExtension` returns status 0 without raising, runs nothing and leaves
the configuration as it was; it writes the "not found - continuing" line when
verbose and nothing otherwise. -/
theorem runExtension_no_candidates (env : Env) (pattern arguments : Str) (config : Config)
    (verbose : Bool) (history : History)
    (h : env.glob (config.get "extensions".toList ++ "/".toList ++ pattern) = []) :
    taskd_runExtension env pattern arguments config verbose history
      = .ok (0, config,
          if verbose then
            "- taskd_runExtension '".toList
              ++ (config.get "extensions".toList ++ "/".toList ++ pattern)
              ++ "' not found - continuing.\n".toList
          else [],
          history) := by
  cases verbose with
  | true => simp only [taskd_runExtension, h, runExtensionLoop]; rfl
  | false => simp only [taskd_runExtension, h, runExtensionLoop]; rfl

/-- C12 witness: a world without plugins, with `extensions` set to `/ext`. -/
theorem runExtension_no_candidates_witness :
    noPluginEnv.glob
        (Config.get [("extensions".toList, "/ext".toList)] "extensions".toList
          ++ "/".toList ++ "p*".toList) = []
      ∧ taskd_runExtension noPluginEnv "p*".toList "x".toList
          [("extensions".toList, "/ext".toList)] true []
        = .ok (0, [("extensions".toList, "/ext".toList)],
            if true then
              "- taskd_runExtension '".toList
                ++ (Config.get [("extensions".toList, "/ext".toList)] "extensions".toList
                      ++ "/".toList ++ "p*".toList)
                ++ "' not found - continuing.\n".toList
            else [],
            []) :=
  ⟨rfl, runExtension_no_candidates noPluginEnv "p*".toList "x".toList
      [("extensions".toList, "/ext".toList)] true [] rfl⟩

/-- C14: `taskd_is_org`, `taskd_is_group` and `taskd_is_user` return exactly
whether `root/orgs/<org>`, `root/orgs/<org>/groups/<group>` and
`root/orgs/<org>/users/<user>` exist; in the store that holds only the tree
`root/orgs/acme/groups/eng` the group `eng` of `acme` exists and the user `eng`
of `acme` does not. -/
theorem directory_predicates (pathExists : Str → Bool) (root : Directory)
    (org group user : Str) :
    taskd_is_org pathExists root org
        = pathExists (root.data ++ "/".toList ++ "orgs".toList ++ "/".toList ++ org)
      ∧ taskd_is_group pathExists root org group
        = pathExists (root.data ++ "/".toList ++ "orgs".toList ++ "/".toList ++ org
            ++ "/".toList ++ "groups".toList ++ "/".toList ++ group)
      ∧ taskd_is_user pathExists root org user
        = pathExists (root.data ++ "/".toList ++ "orgs".toList ++ "/".toList ++ org
            ++ "/".toList ++ "users".toList ++ "/".toList ++ user)
      ∧ taskd_is_group (treeStore root.data) root "acme".toList "eng".toList = true
      ∧ taskd_is_user (treeStore root.data) root "acme".toList "eng".toList = false := by
  refine ⟨rfl, rfl, rfl, ?_, ?_⟩
  · simp [taskd_is_group, Directory.add, treeStore]
  · have hlen : ∀ (a b : Str), a.length ≠ b.length → a ≠ b := by
      intro a b h e
      exact h (by rw [e])
    have hcancel : ∀ (a b : Str), a ≠ b → root.data ++ a ≠ root.data ++ b := by
      intro a b h e
      exact h (List.append_cancel_left e)
    have h0 : root.data ++ "/orgs/acme/users/eng".toList ≠ root.data := by
      apply hlen
      simp
    have h1 := hcancel "/orgs/acme/users/eng".toList "/orgs".toList (by decide)
    have h2 := hcancel "/orgs/acme/users/eng".toList "/orgs/acme".toList (by decide)
    have h3 := hcancel "/orgs/acme/users/eng".toList "/orgs/acme/groups".toList (by decide)
    have h4 := hcancel "/orgs/acme/users/eng".toList "/orgs/acme/groups/eng".toList
      (by decide)
    have hpath : (((((root.add "orgs".toList).add "acme".toList).add "users".toList).add
        "eng".toList).data) = root.data ++ "/orgs/acme/users/eng".toList := by
      simp [Directory.add]
    simp only [taskd_is_user, hpath, treeStore, List.mem_cons, h0, h1, h2, h3, h4,
      List.mem_nil_iff, or_self, decide_False]

theorem Msg_get_missing (message : Msg) (name : Str)
    (h : ∀ entry ∈ message.header, entry.1 ≠ name) : message.get name = [] := by
  have hnone : message.header.find? (fun entry => entry.1 = name) = none := by
    rw [List.find?_eq_none]
    intro entry hm
    simpa using h entry hm
  simp only [Msg.get, hnone]

/-- C15: `taskd_requireHeader` raises exactly when the message's value for the
header differs from the expected value, a missing header reading as the empty
string; a matching header returns normally. -/
theorem requireHeader_raises_iff (format : Str → Str → Str → Str) (message : Msg)
    (name value : Str) :
    ((∃ e, taskd_requireHeader format message name value = .error e)
        ↔ message.get name ≠ value)
      ∧ (message.get name ≠ value →
          taskd_requireHeader format message name value
            = .error (.str (format "ERROR: Message \x7b1\x7d should be '\x7b2\x7d'".toList
                name value)))
      ∧ (message.get name = value →
          taskd_requireHeader format message name value = .ok ())
      ∧ ((∀ entry ∈ message.header, entry.1 ≠ name) → message.get name = []) := by
  refine ⟨?_, ?_, ?_, Msg_get_missing message name⟩
  · by_cases h : message.get name = value
    · simp [taskd_requireHeader, h]
    · simp [taskd_requireHeader, h]
  · intro h
    simp only [taskd_requireHeader, ne_eq, h, not_false_eq_true, if_true]
  · intro h
    simp only [taskd_requireHeader, ne_eq, h, not_true_eq_false, if_false]

/-- C15 witness: the message of type `sync` raises when `response` is
expected, passes when `sync` is expected, and its missing header `code` reads
as the empty string. -/
theorem requireHeader_raises_iff_witness :
    taskd_requireHeader (fun text _ _ => text) oldMsg "type".toList "response".toList
        = .error (.str "ERROR: Message \x7b1\x7d should be '\x7b2\x7d'".toList)
      ∧ taskd_requireHeader (fun text _ _ => text) oldMsg "type".toList "sync".toList = .ok ()
      ∧ oldMsg.get "code".toList = [] :=
  ⟨(requireHeader_raises_iff (fun text _ _ => text) oldMsg "type".toList
      "response".toList).2.1 (by decide),
   (requireHeader_raises_iff (fun text _ _ => text) oldMsg "type".toList
      "sync".toList).2.2.1 (by decide),
   (requireHeader_raises_iff (fun text _ _ => text) oldMsg "code".toList
      "x".toList).2.2.2 (by decide)⟩

/-- C16: `taskd_requireSetting` raises exactly when the configuration's value
for the name is the empty string, a missing setting reading as empty; the
message thrown names the setting; otherwise the call returns normally; in both
cases the configuration is left as it was. -/
theorem requireSetting_raises_iff (config : Config) (name : Str) :
    ((∃ e, (taskd_requireSetting config name).1 = .error e) ↔ config.get name = [])
      ∧ (config.get name = [] →
          taskd_requireSetting config name
            = (.error (.str ("ERROR: Required configuration setting '".toList ++ name
                ++ "' not found.".toList)), config))
      ∧ name <:+: ("ERROR: Required configuration setting '".toList ++ name
                ++ "' not found.".toList)
      ∧ (config.get name ≠ [] → taskd_requireSetting config name = (.ok (), config))
      ∧ (taskd_requireSetting config name).2 = config
      ∧ ((∀ entry ∈ config, entry.1 ≠ name) → config.get name = []) := by
  refine ⟨?_, ?_, ?_, ?_, ?_, ?_⟩
  · by_cases h : config.get name = []
    · simp [taskd_requireSetting, h]
    · simp [taskd_requireSetting, h]
  · intro h
    simp only [taskd_requireSetting, h, if_true]
  · exact ⟨"ERROR: Required configuration setting '".toList, "' not found.".toList, rfl⟩
  · intro h
    simp only [taskd_requireSetting, h, if_false]
  · by_cases h : config.get name = []
    · simp only [taskd_requireSetting, h, if_true]
    · simp only [taskd_requireSetting, h, if_false]
  · intro h
    induction config with
    | nil => rfl
    | cons p rest ih =>
      obtain ⟨k, v⟩ := p
      have hk : ¬ k = name := h (k, v) (List.mem_cons_self _ _)
      simp only [Config.get, hk, if_false]
      exact ih (fun entry hm => h entry (List.mem_cons_of_mem _ hm))

/-- C16 witness: with only `server` configured, requiring `server` returns
normally and requiring the missing `log` raises. -/
theorem requireSetting_raises_iff_witness :
    taskd_requireSetting [("server".toList, "localhost:6544".toList)] "log".toList
        = (.error (.str ("ERROR: Required configuration setting '".toList ++ "log".toList
              ++ "' not found.".toList)), [("server".toList, "localhost:6544".toList)])
      ∧ taskd_requireSetting [("server".toList, "localhost:6544".toList)] "server".toList
        = (.ok (), [("server".toList, "localhost:6544".toList)]) :=
  ⟨(requireSetting_raises_iff [("server".toList, "localhost:6544".toList)]
      "log".toList).2.1 (by decide),
   (requireSetting_raises_iff [("server".toList, "localhost:6544".toList)]
      "server".toList).2.2.2.1 (by decide)⟩

/-- A loop of the configuration-parsing `taskd_runExtension` that returns a
non-zero status returns the configuration it was given. -/
theorem runExtensionLoop_nonzero_keeps_config (env : Env) (arguments : Str) (verbose : Bool) :
    ∀ (paths : List Str) (status : Int) (config : Config) (cout : Str) (history : History)
      (st : Int) (config1 : Config) (cout1 : Str) (history1 : History),
      runExtensionLoop env arguments verbose paths status config cout history
        = .ok (st, config1, cout1, history1) →
      st ≠ 0 → config1 = config := by
  intro paths
  induction paths with
  | nil =>
    intro status config cout history st config1 cout1 history1 hres _
    simp only [runExtensionLoop, Except.ok.injEq, Prod.mk.injEq] at hres
    exact hres.2.1.symm
  | cons p rest ih =>
    intro status config cout history st config1 cout1 history1 hres hst
    by_cases hx : env.executable p = true
    · rw [runExtensionLoop, if_pos hx] at hres
      cases hp : env.popen history (p ++ " ".toList ++ arguments) with
      | none =>
        simp only [taskd_execute, hp] at hres
        cases hres
      | some out =>
        obtain ⟨text, st1⟩ := out
        simp only [taskd_execute_ok _ _ _ _ _ _ hp] at hres
        by_cases h0 : st1 = 0
        · simp only [h0, if_true] at hres
          split at hres
          · cases hres
          · simp only [Except.ok.injEq, Prod.mk.injEq] at hres
            exact absurd hres.1.symm hst
        · simp only [h0, if_false] at hres
          exact ih _ _ _ _ _ _ _ _ hres hst
    · rw [runExtensionLoop, if_neg hx] at hres
      exact ih _ _ _ _ _ _ _ _ hres hst

theorem runExtension_loop_of_ok (env : Env) (pattern arguments : Str) (config : Config)
    (verbose : Bool) (history : History) (st : Int) (config1 : Config) (cout1 : Str)
    (history1 : History)
    (hres : taskd_runExtension env pattern arguments config verbose history
              = .ok (st, config1, cout1, history1)) :
    ∃ cout0, runExtensionLoop env arguments verbose
        (env.glob (config.get "extensions".toList ++ "/".toList ++ pattern)) 0 config []
        history = .ok (st, config1, cout0, history1) := by
  simp only [taskd_runExtension] at hres
  cases hl : runExtensionLoop env arguments verbose
      (env.glob (config.get "extensions".toList ++ "/".toList ++ pattern)) 0 config []
      history with
  | error e =>
    rw [hl] at hres
    cases hres
  | ok r =>
    obtain ⟨st0, c0, o0, h0⟩ := r
    rw [hl] at hres
    simp only at hres
    split at hres
    · simp only [Except.ok.injEq, Prod.mk.injEq] at hres
      obtain ⟨h1, h2, _, h4⟩ := hres
      exact ⟨o0, by rw [h1, h2, h4]⟩
    · simp only [Except.ok.injEq, Prod.mk.injEq] at hres
      obtain ⟨h1, h2, _, h4⟩ := hres
      exact ⟨o0, by rw [h1, h2, h4]⟩

/-- C18: whenever the configuration-parsing `taskd_runExtension` returns a
non-zero status, the configuration it returns is the one it was given; and
when every pipe can be opened the call returns, and the configuration changes
only by the handling of the output of the one plugin that exited 0 and ended
the loop. -/
theorem runExtension_nonzero_keeps_config (env : Env) (pattern arguments : Str)
    (config : Config) (verbose : Bool) (history : History) :
    (∀ (st : Int) (config1 : Config) (cout1 : Str) (history1 : History),
        taskd_runExtension env pattern arguments config verbose history
          = .ok (st, config1, cout1, history1) →
        st ≠ 0 → config1 = config)
    ∧ ((∀ h c, (env.popen h c).isSome) →
        ∃ st config1 cout1 runs,
          taskd_runExtension env pattern arguments config verbose history
            = .ok (st, config1, cout1, history ++ runs)
          ∧ (((∀ r ∈ runs, r.status ≠ 0) ∧ config1 = config)
              ∨ (∃ init last, runs = init ++ [last] ∧ (∀ r ∈ init, r.status ≠ 0)
                  ∧ last.status = 0 ∧ st = 0
                  ∧ config1 = spec_handleOutput last.output config))) := by
  constructor
  · intro st config1 cout1 history1 hres hst
    obtain ⟨cout0, hl⟩ := runExtension_loop_of_ok env pattern arguments config verbose
      history st config1 cout1 history1 hres
    exact runExtensionLoop_nonzero_keeps_config env arguments verbose _ _ _ _ _ _ _ _ _ hl hst
  · intro H
    obtain ⟨st, config1, cout1, runs, he, _, _, hcase⟩ :=
      runExtensionLoop_spec env arguments verbose H
        (env.glob (config.get "extensions".toList ++ "/".toList ++ pattern)) 0 config []
        history
    obtain ⟨cout2, hrun⟩ := runExtension_of_loop env pattern arguments config verbose history
      st config1 cout1 _ he
    refine ⟨st, config1, cout2, runs, hrun, ?_⟩
    rcases hcase with ⟨hz, _, _, hc⟩ | ⟨init, last, hruns, hz, hl, hst, hc⟩
    · exact Or.inl ⟨hz, hc⟩
    · exact Or.inr ⟨init, last, hruns, hz, hl, hst, hc⟩

/-- C18 witness: the only plugin prints `foo: bar` and exits 1; the call
returns 1 and `foo` keeps its old value. -/
theorem runExtension_nonzero_keeps_config_witness :
    taskd_runExtension failEnv "p*".toList "x".toList [("foo".toList, "old".toList)] false []
        = .ok (1, [("foo".toList, "old".toList)], [],
            [⟨"/ext/p1 x".toList, "foo: bar\n".toList, 1⟩])
      ∧ ([("foo".toList, "old".toList)] : Config) = [("foo".toList, "old".toList)] :=
  ⟨by rfl,
   (runExtension_nonzero_keeps_config failEnv "p*".toList "x".toList
      [("foo".toList, "old".toList)] false []).1 1 [("foo".toList, "old".toList)] []
      [⟨"/ext/p1 x".toList, "foo: bar\n".toList, 1⟩] (by rfl) (by decide)⟩

theorem find_none_not_mem (s : Str) (c : Char) (pos : Nat) (h : find s c pos = none) :
    c ∉ s.drop pos := by
  intro hm
  have hlt := List.indexOf_lt_length.mpr hm
  unfold find at h
  simp only at h
  rw [if_pos hlt] at h
  cases h

theorem find_not_mem_before (s : Str) (c : Char) (pos e : Nat) (h : find s c pos = some e) :
    c ∉ (s.drop pos).take (e - pos) := by
  unfold find at h
  simp only at h
  split at h
  · simp only [Option.some.injEq] at h
    subst h
    rw [Nat.add_sub_cancel_left, take_indexOf]
    intro hm
    have := List.mem_takeWhile_imp hm
    simp at this
  · simp at h

theorem split_at_separator (arg : Str) (e : Nat) (c : Char) (hd : arg.take 2 = ['-', '-'])
    (he : 2 < e) (hc : arg[e]? = some c) :
    arg = "--".toList ++ (arg.drop 2).take (e - 2) ++ c :: arg.drop (e + 1)
      ∧ (arg.drop 2).take (e - 2) ≠ [] := by
  obtain ⟨hlt, hce⟩ := List.getElem?_eq_some_iff.mp hc
  have hd' : "--".toList = ['-', '-'] := rfl
  constructor
  · have h1 : arg.drop e = c :: arg.drop (e + 1) := by
      rw [List.drop_eq_getElem_cons hlt, hce]
    have h2 : (arg.drop 2).drop (e - 2) = arg.drop e := by
      rw [List.drop_drop]
      congr 1
      omega
    calc arg = arg.take 2 ++ arg.drop 2 := (List.take_append_drop 2 arg).symm
      _ = arg.take 2 ++ ((arg.drop 2).take (e - 2) ++ (arg.drop 2).drop (e - 2)) := by
          rw [List.take_append_drop (e - 2) (arg.drop 2)]
      _ = "--".toList ++ (arg.drop 2).take (e - 2) ++ c :: arg.drop (e + 1) := by
          rw [h2, h1, hd, hd', List.append_assoc]
  · intro hnil
    have hl : ((arg.drop 2).take (e - 2)).length = 0 := by rw [hnil]; rfl
    simp only [List.length_take, List.length_drop] at hl
    omega

/-- C19: whenever `taskd_applyOverride` returns true, the argument is
`"--" + name + sep + value` with `name` non-empty and `sep` one of `=` and `:`,
and these `name` and `value` are what is stored and printed; `name` holds no
`=`; `sep` is `=` whenever the argument has an `=` at or after index 2; and
when `sep` is `:` the argument has no `=` after the prefix and `name` holds no
`:`. -/
theorem applyOverride_true_split (config : Config) (arg : Str) (config1 : Config) (out : Str)
    (h : taskd_applyOverride config arg = .ok (true, config1, out)) :
    ∃ name sep value,
      arg = "--".toList ++ name ++ sep :: value
      ∧ name ≠ []
      ∧ (sep = '=' ∨ sep = ':')
      ∧ config1 = config.set name value
      ∧ out = "- Override ".toList ++ name ++ ['='] ++ value ++ "\n".toList
      ∧ '=' ∉ name
      ∧ ('=' ∈ arg.drop 2 → sep = '=')
      ∧ (sep = ':' → '=' ∉ arg.drop 2 ∧ ':' ∉ name) := by
  by_cases hd : arg.take 2 = ['-', '-']
  · cases hfe : find arg '=' 2 with
    | some e =>
      have hsel : (match find arg '=' 2 with
              | some e => some e
              | none => find arg ':' 2) = some e := by rw [hfe]
      by_cases he : 2 < e
      · have hm := find_mem _ _ _ _ hfe
        rw [applyOverride_of_sep config arg e hd hsel he hm.2.1] at h
        simp only [Except.ok.injEq, Prod.mk.injEq, true_and] at h
        obtain ⟨hsplit, hne⟩ := split_at_separator arg e '=' hd he hm.2.2
        refine ⟨_, '=', _, hsplit, hne, Or.inl rfl, h.1.symm, h.2.symm,
          find_not_mem_before _ _ _ _ hfe, fun _ => rfl, ?_⟩
        intro hsep
        exact absurd hsep (by decide)
      · rw [applyOverride_of_sep_le config arg e hsel he] at h
        simp at h
    | none =>
      have hnoeq := find_none_not_mem _ _ _ hfe
      cases hfc : find arg ':' 2 with
      | some e =>
        have hsel : (match find arg '=' 2 with
                | some e => some e
                | none => find arg ':' 2) = some e := by rw [hfe, hfc]
        by_cases he : 2 < e
        · have hm := find_mem _ _ _ _ hfc
          rw [applyOverride_of_sep config arg e hd hsel he hm.2.1] at h
          simp only [Except.ok.injEq, Prod.mk.injEq, true_and] at h
          obtain ⟨hsplit, hne⟩ := split_at_separator arg e ':' hd he hm.2.2
          refine ⟨_, ':', _, hsplit, hne, Or.inr rfl, h.1.symm, h.2.symm, ?_,
            fun hmem => absurd hmem hnoeq, ?_⟩
          · intro hmem
            exact hnoeq (List.mem_of_mem_take hmem)
          · intro _
            exact ⟨hnoeq, find_not_mem_before _ _ _ _ hfc⟩
        · rw [applyOverride_of_sep_le config arg e hsel he] at h
          simp at h
      | none =>
        have hsel : (match find arg '=' 2 with
                | some e => some e
                | none => find arg ':' 2) = none := by rw [hfe, hfc]
        rw [applyOverride_of_no_sep config arg hsel] at h
        simp at h
  · rw [applyOverride_of_no_dashes config arg hd] at h
    simp at h

/-- C19 witness: `--a:b=c` is accepted with name `a:b`, separator `=` and
value `c`. -/
theorem applyOverride_true_split_witness :
    ∃ name sep value,
      "--a:b=c".toList = "--".toList ++ name ++ sep :: value
      ∧ name ≠ []
      ∧ (sep = '=' ∨ sep = ':')
      ∧ ([("a:b".toList, "c".toList)] : Config) = Config.set [] name value
      ∧ "- Override a:b=c\n".toList
          = "- Override ".toList ++ name ++ ['='] ++ value ++ "\n".toList
      ∧ '=' ∉ name
      ∧ ('=' ∈ ("--a:b=c".toList).drop 2 → sep = '=')
      ∧ (sep = ':' → '=' ∉ ("--a:b=c".toList).drop 2 ∧ ':' ∉ name) :=
  applyOverride_true_split [] "--a:b=c".toList [("a:b".toList, "c".toList)]
    "- Override a:b=c\n".toList (by rfl)

/-- The loop of `taskd_runHook` with its log: the scripts split into those
reached and those after the script that stopped the chain; the runs are what
the world answers for the runnable scripts reached, and the log grows by
`spec_hookLog` of them. -/
theorem runHookLoop_log (env : Env) (hook arguments : Str)
    (H : ∀ h c, (env.popen h c).isSome) :
    ∀ (hs : List Str) (log : Log) (history : History),
      ∃ st log1 runs reached unreached,
        runHookLoop env hook arguments hs 0 log history = .ok (st, log1, history ++ runs)
        ∧ answered env history runs = true
        ∧ hs = reached ++ unreached
        ∧ runs.map Run.command = hookCommands env arguments reached
        ∧ log1 = log ++ spec_hookLog env hook reached runs
        ∧ (unreached = []
            ∨ (∃ init last pre h, runs = init ++ [last] ∧ last.status ≠ 0
                ∧ reached = pre ++ [h] ∧ runnable env h = true
                ∧ last.command = h ++ " ".toList ++ arguments)) := by
  intro hs
  induction hs with
  | nil =>
    intro log history
    exact ⟨0, log, [], [], [], by simp [runHookLoop], rfl, rfl, by simp [hookCommands],
      by simp [spec_hookLog], Or.inl rfl⟩
  | cons h rest ih =>
    intro log history
    by_cases hr : runnable env h = true
    · have hr' : (env.executable h || containsStr "taskd ".toList h) = true := hr
      obtain ⟨⟨text, st1⟩, hp⟩ :=
        Option.isSome_iff_exists.mp (H history (h ++ " ".toList ++ arguments))
      have hcmds : ∀ l, hookCommands env arguments (h :: l)
          = (h ++ " ".toList ++ arguments) :: hookCommands env arguments l := by
        intro l
        simp [hookCommands, List.filter_cons, hr]
      by_cases h0 : st1 = 0
      · subst h0
        obtain ⟨st, log1, runs, reached, unreached, he, ha, hsplit, hmap, hlog, hcase⟩ :=
          ih ((log.write (hook ++ ": ".toList ++ (h ++ " ".toList ++ arguments))).write text)
            (history ++ [⟨h ++ " ".toList ++ arguments, text, 0⟩])
        refine ⟨st, log1, ⟨h ++ " ".toList ++ arguments, text, 0⟩ :: runs, h :: reached,
          unreached, ?_, answered_cons _ _ _ _ hp ha, by rw [hsplit]; rfl, ?_, ?_, ?_⟩
        · rw [runHookLoop, if_pos hr']
          simp only [taskd_execute_ok _ _ _ _ _ _ hp, ne_eq, not_true_eq_false, if_false]
          rw [he]; simp
        · rw [hcmds, List.map_cons, hmap]
        · rw [hlog]
          simp only [spec_hookLog, hr, if_true, runEntries, Log.write, List.append_assoc,
            List.cons_append, List.nil_append]
        · rcases hcase with hnil | ⟨init, last, pre, h1, hruns, hl, hreached, hrun, hcmd⟩
          · exact Or.inl hnil
          · right
            exact ⟨⟨h ++ " ".toList ++ arguments, text, 0⟩ :: init, last, h :: pre, h1,
              by rw [hruns]; rfl, hl, by rw [hreached]; rfl, hrun, hcmd⟩
      · refine ⟨st1, (log.write (hook ++ ": ".toList ++ (h ++ " ".toList ++ arguments))).write
            text, [⟨h ++ " ".toList ++ arguments, text, st1⟩], [h], rest, ?_,
          answered_cons _ _ _ _ hp rfl, rfl, ?_, ?_, ?_⟩
        · rw [runHookLoop, if_pos hr']
          simp only [taskd_execute_ok _ _ _ _ _ _ hp, ne_eq, h0, not_false_eq_true, if_true]
        · rw [hcmds]; simp [hookCommands]
        · simp only [spec_hookLog, hr, if_true, runEntries, Log.write, List.append_assoc,
            List.cons_append, List.nil_append, List.append_nil]
        · right
          exact ⟨[], _, [], h, rfl, h0, rfl, hr, rfl⟩
    · have hr' : ¬ (env.executable h || containsStr "taskd ".toList h) = true := hr
      have hcmds : ∀ l, hookCommands env arguments (h :: l) = hookCommands env arguments l := by
        intro l
        simp [hookCommands, List.filter_cons, hr]
      obtain ⟨st, log1, runs, reached, unreached, he, ha, hsplit, hmap, hlog, hcase⟩ :=
        ih (log.write ("ERROR: Hook '".toList ++ hook ++ "' script '".toList ++ h
              ++ "' not executable.".toList)) history
      refine ⟨st, log1, runs, h :: reached, unreached, ?_, ha, by rw [hsplit]; rfl,
        by rw [hcmds]; exact hmap, ?_, ?_⟩
      · rw [runHookLoop, if_neg hr']
        exact he
      · rw [hlog]
        have hrf : runnable env h = false := by simpa using hr
        simp only [spec_hookLog, hrf, Bool.false_eq_true, if_false, Log.write,
          List.append_assoc, List.cons_append, List.nil_append]
      · rcases hcase with hnil | ⟨init, last, pre, h1, hruns, hl, hreached, hrun, hcmd⟩
        · exact Or.inl hnil
        · right
          exact ⟨init, last, h :: pre, h1, hruns, hl, by rw [hreached]; rfl, hrun, hcmd⟩

/-- In the specified log the entries of the runs appear in execution order. -/
theorem runEntries_sublist (env : Env) (hook arguments : Str) :
    ∀ (reached : List Str) (runs : List Run),
      runs.map Run.command = hookCommands env arguments reached →
      List.Sublist (runs.flatMap (runEntries hook)) (spec_hookLog env hook reached runs) := by
  intro reached
  induction reached with
  | nil =>
    intro runs hmap
    have : runs = [] := by simpa [hookCommands] using hmap
    subst this
    simp [spec_hookLog]
  | cons h rest ih =>
    intro runs hmap
    by_cases hr : runnable env h = true
    · have hcmds : hookCommands env arguments (h :: rest)
          = (h ++ " ".toList ++ arguments) :: hookCommands env arguments rest := by
        simp [hookCommands, List.filter_cons, hr]
      rw [hcmds] at hmap
      cases runs with
      | nil => simp at hmap
      | cons r runs1 =>
        simp only [List.map_cons, List.cons.injEq] at hmap
        simp only [spec_hookLog, hr, if_true, List.flatMap_cons]
        exact List.Sublist.append (List.Sublist.refl _) (ih runs1 hmap.2)
    · have hcmds : hookCommands env arguments (h :: rest) = hookCommands env arguments rest := by
        simp [hookCommands, List.filter_cons, hr]
      rw [hcmds] at hmap
      have hrf : runnable env h = false := by simpa using hr
      simp only [spec_hookLog, hrf, Bool.false_eq_true, if_false]
      exact List.Sublist.cons _ (ih runs hmap)

theorem spec_hookLog_all_runnable (env : Env) (hook arguments : Str) :
    ∀ (reached : List Str) (runs : List Run),
      (∀ e ∈ reached, runnable env e = true) →
      runs.map Run.command = hookCommands env arguments reached →
      spec_hookLog env hook reached runs = runs.flatMap (runEntries hook) := by
  intro reached
  induction reached with
  | nil =>
    intro runs _ hmap
    have : runs = [] := by simpa [hookCommands] using hmap
    subst this
    simp [spec_hookLog]
  | cons h rest ih =>
    intro runs hall hmap
    have hr : runnable env h = true := hall h (List.mem_cons_self _ _)
    have hcmds : hookCommands env arguments (h :: rest)
        = (h ++ " ".toList ++ arguments) :: hookCommands env arguments rest := by
      simp [hookCommands, List.filter_cons, hr]
    rw [hcmds] at hmap
    cases runs with
    | nil => simp at hmap
    | cons r runs1 =>
      simp only [List.map_cons, List.cons.injEq] at hmap
      simp only [spec_hookLog, hr, if_true, List.flatMap_cons]
      rw [ih runs1 (fun e he => hall e (List.mem_cons_of_mem _ he)) hmap.2]

theorem runHook_eq_loop (env : Env) (hook arguments : Str) (log : Log) (config : Config)
    (history : History) :
    taskd_runHook env hook arguments log config history
      = runHookLoop env hook arguments (split (config.get hook) ',') 0 log history := by
  by_cases hs : config.get hook = []
  · simp [taskd_runHook, hs, split, runHookLoop]
  · simp only [taskd_runHook, ne_eq, hs, not_false_eq_true, if_true]

/-- C17: when every pipe can be opened, the log after `taskd_runHook` is the
log before it followed by the entries of the scripts that were reached. The
runs are what the world answers: each recorded output is the text `popen` gave
for that command at the history reached. Each executed script, whatever its
status, contributes `<hook>: <command>` and then that captured output, in
execution order; scripts are left unreached only after a run that exited
non-zero, which is the last script reached and is logged; unreached scripts
contribute nothing. -/
theorem runHook_logs_every_run (env : Env) (hook arguments : Str) (log : Log)
    (config : Config) (history : History) (H : ∀ h c, (env.popen h c).isSome) :
    ∃ st log1 runs reached unreached,
      taskd_runHook env hook arguments log config history = .ok (st, log1, history ++ runs)
      ∧ answered env history runs = true
      ∧ split (config.get hook) ',' = reached ++ unreached
      ∧ runs.map Run.command = hookCommands env arguments reached
      ∧ log1 = log ++ spec_hookLog env hook reached runs
      ∧ List.Sublist (runs.flatMap (runEntries hook)) (spec_hookLog env hook reached runs)
      ∧ ((∀ e ∈ reached, runnable env e = true) →
          log1 = log ++ runs.flatMap (runEntries hook))
      ∧ (unreached = []
          ∨ (∃ init last pre h, runs = init ++ [last] ∧ last.status ≠ 0
              ∧ reached = pre ++ [h] ∧ runnable env h = true
              ∧ last.command = h ++ " ".toList ++ arguments)) := by
  obtain ⟨st, log1, runs, reached, unreached, he, ha, hsplit, hmap, hlog, hcase⟩ :=
    runHookLoop_log env hook arguments H (split (config.get hook) ',') log history
  refine ⟨st, log1, runs, reached, unreached, ?_, ha, hsplit, hmap, hlog,
    runEntries_sublist env hook arguments reached runs hmap, ?_, hcase⟩
  · rw [runHook_eq_loop]
    exact he
  · intro hall
    rw [hlog, spec_hookLog_all_runnable env hook arguments reached runs hall hmap]

/-- C17 witness: in the demo world the hook list `A,B,C` logs the run of `A`
with its output `foo: bar`, then the run of `B` with its output `no`, which
exits 3, and nothing for `C`. -/
theorem runHook_logs_every_run_witness :
    ∃ st log1 runs reached unreached,
      taskd_runHook demoEnv "h".toList "x".toList [] [("h".toList, "A,B,C".toList)] []
        = .ok (st, log1, [] ++ runs)
      ∧ answered demoEnv [] runs = true
      ∧ split (Config.get [("h".toList, "A,B,C".toList)] "h".toList) ',' = reached ++ unreached
      ∧ runs.map Run.command = hookCommands demoEnv "x".toList reached
      ∧ log1 = [] ++ spec_hookLog demoEnv "h".toList reached runs
      ∧ List.Sublist (runs.flatMap (runEntries "h".toList))
          (spec_hookLog demoEnv "h".toList reached runs)
      ∧ ((∀ e ∈ reached, runnable demoEnv e = true) →
          log1 = [] ++ runs.flatMap (runEntries "h".toList))
      ∧ (unreached = []
          ∨ (∃ init last pre h, runs = init ++ [last] ∧ last.status ≠ 0
              ∧ reached = pre ++ [h] ∧ runnable demoEnv h = true
              ∧ last.command = h ++ " ".toList ++ "x".toList)) :=
  runHook_logs_every_run demoEnv "h".toList "x".toList [] [("h".toList, "A,B,C".toList)] []
    (fun _ c => by simp only [demoEnv]; split <;> rfl)

/-- A loop of `taskd_runHook` that ends with status 0 has not stopped early:
the scripts after it are processed from the state it reached. -/
theorem runHookLoop_append (env : Env) (hook arguments : Str) :
    ∀ (pre rest : List Str) (status : Int) (log : Log) (history : History) (log1 : Log)
      (history1 : History),
      runHookLoop env hook arguments pre status log history = .ok (0, log1, history1) →
      runHookLoop env hook arguments (pre ++ rest) status log history
        = runHookLoop env hook arguments rest 0 log1 history1 := by
  intro pre
  induction pre with
  | nil =>
    intro rest status log history log1 history1 h
    simp only [runHookLoop, Except.ok.injEq, Prod.mk.injEq] at h
    obtain ⟨h1, h2, h3⟩ := h
    rw [h1, h2, h3]
    rfl
  | cons p pre1 ih =>
    intro rest status log history log1 history1 h
    by_cases hr : (env.executable p || containsStr "taskd ".toList p) = true
    · rw [runHookLoop, if_pos hr] at h
      rw [List.cons_append, runHookLoop, if_pos hr]
      cases hp : env.popen history (p ++ " ".toList ++ arguments) with
      | none =>
        simp only [taskd_execute, hp] at h
        cases h
      | some out =>
        obtain ⟨text, st1⟩ := out
        simp only [taskd_execute_ok _ _ _ _ _ _ hp] at h ⊢
        by_cases h0 : st1 = 0
        · simp only [h0, ne_eq, not_true_eq_false, if_false] at h ⊢
          exact ih rest _ _ _ _ _ h
        · simp only [ne_eq, h0, not_false_eq_true, if_true, Except.ok.injEq,
            Prod.mk.injEq] at h
          exact h.1.elim
    · rw [runHookLoop, if_neg hr] at h
      rw [List.cons_append, runHookLoop, if_neg hr]
      exact ih rest _ _ _ _ _ h

/-- C13 (as stated, refuted): in the demo world the hook list `B,A` runs `B`,
which exits 3, and stops; the entry `A` is runnable and yet is not executed:
the only run and the only log entries are those of `B`. -/
theorem runHook_runnable_entry_not_executed :
    runnable demoEnv "A".toList = true
      ∧ split (Config.get [("h".toList, "B,A".toList)] "h".toList) ','
          = ["B".toList, "A".toList]
      ∧ taskd_runHook demoEnv "h".toList "x".toList [] [("h".toList, "B,A".toList)] []
          = .ok (3, ["h: B x".toList, "no".toList], [⟨"B x".toList, "no".toList, 3⟩]) := by
  refine ⟨by rfl, by rfl, by rfl⟩

/-- C13 (amended): for every entry of the hook's script list that is reached,
that is, the loop over the entries before it ended with status 0: a runnable
entry (executable path, or containing `taskd `) is executed as
`entry + " " + arguments`; an entry that is not runnable is not executed, gets
the "not executable" error written to the log, leaves the status as it was,
and the entries after it are processed. Moreover, when every pipe can be
opened, every command run is that of a runnable entry of the list, and the
command of an entry that is not runnable is never run. -/
theorem runHook_entry_handling (env : Env) (hook arguments : Str) (log : Log)
    (config : Config) (history : History) :
    (∀ (pre post : List Str) (h : Str) (log1 : Log) (history1 : History),
        split (config.get hook) ',' = pre ++ h :: post →
        runHookLoop env hook arguments pre 0 log history = .ok (0, log1, history1) →
        (runnable env h = true →
          (∀ text st, env.popen history1 (h ++ " ".toList ++ arguments) = some (text, st) →
            taskd_runHook env hook arguments log config history
              = if st ≠ 0 then
                  .ok (st,
                    (log1.write (hook ++ ": ".toList ++ (h ++ " ".toList ++ arguments))).write
                      text,
                    history1 ++ [⟨h ++ " ".toList ++ arguments, text, st⟩])
                else
                  runHookLoop env hook arguments post 0
                    ((log1.write (hook ++ ": ".toList ++ (h ++ " ".toList ++ arguments))).write
                      text)
                    (history1 ++ [⟨h ++ " ".toList ++ arguments, text, st⟩]))
          ∧ (env.popen history1 (h ++ " ".toList ++ arguments) = none →
              taskd_runHook env hook arguments log config history
                = .error (.str ("ERROR: Could not execute '".toList
                    ++ (h ++ " ".toList ++ arguments) ++ "'".toList))))
        ∧ (runnable env h = false →
            taskd_runHook env hook arguments log config history
              = runHookLoop env hook arguments post 0
                  (log1.write ("ERROR: Hook '".toList ++ hook ++ "' script '".toList ++ h
                    ++ "' not executable.".toList))
                  history1))
    ∧ ((∀ h c, (env.popen h c).isSome) →
        ∃ st log2 runs,
          taskd_runHook env hook arguments log config history
            = .ok (st, log2, history ++ runs)
          ∧ (∀ r ∈ runs, ∃ e ∈ split (config.get hook) ',',
              runnable env e = true ∧ r.command = e ++ " ".toList ++ arguments)
          ∧ (∀ e, runnable env e = false →
              ∀ r ∈ runs, r.command ≠ e ++ " ".toList ++ arguments)) := by
  constructor
  · intro pre post h log1 history1 hsplit hreach
    have hrun : taskd_runHook env hook arguments log config history
        = runHookLoop env hook arguments (h :: post) 0 log1 history1 := by
      rw [runHook_eq_loop, hsplit]
      exact runHookLoop_append env hook arguments pre (h :: post) 0 log history log1 history1
        hreach
    constructor
    · intro hr
      have hr' : (env.executable h || containsStr "taskd ".toList h) = true := hr
      constructor
      · intro text st hp
        rw [hrun, runHookLoop, if_pos hr']
        simp only [taskd_execute_ok _ _ _ _ _ _ hp]
        by_cases h0 : st = 0
        · subst h0; rfl
        · simp only [ne_eq, h0, not_false_eq_true, if_true]
      · intro hp
        rw [hrun, runHookLoop, if_pos hr']
        simp only [taskd_execute, hp]
    · intro hr
      have hr' : ¬ (env.executable h || containsStr "taskd ".toList h) = true := by
        have : (env.executable h || containsStr "taskd ".toList h) = false := hr
        rw [this]
        decide
      rw [hrun, runHookLoop, if_neg hr']
  · intro H
    obtain ⟨st, log2, runs, he, _, hpre, _⟩ :=
      runHookLoop_spec env hook arguments H (split (config.get hook) ',') log history
    have hsrc : ∀ r ∈ runs, ∃ e ∈ split (config.get hook) ',',
        runnable env e = true ∧ r.command = e ++ " ".toList ++ arguments := by
      intro r hr
      have hmem : r.command ∈ hookCommands env arguments (split (config.get hook) ',') :=
        hpre.subset (List.mem_map_of_mem Run.command hr)
      simp only [hookCommands, List.mem_map, List.mem_filter] at hmem
      obtain ⟨e, ⟨hein, her⟩, hcmd⟩ := hmem
      exact ⟨e, hein, her, hcmd.symm⟩
    refine ⟨st, log2, runs, by rw [runHook_eq_loop]; exact he, hsrc, ?_⟩
    intro e hne r hr hcmd
    obtain ⟨e1, _, hrun1, hcmd1⟩ := hsrc r hr
    rw [hcmd1, List.append_assoc, List.append_assoc] at hcmd
    have : e1 = e := List.append_cancel_right hcmd
    rw [this, hne] at hrun1
    cases hrun1

/-- C13 witness: in the demo world with the hook list `A,B`, the entry `B` is
reached after `A` exits 0, is runnable and is executed as `B x`; it exits 3. -/
theorem runHook_entry_handling_witness :
    taskd_runHook demoEnv "h".toList "x".toList [] [("h".toList, "A,B".toList)] []
      = .ok (3,
          (Log.write ["h: A x".toList, "foo: bar\n".toList]
            ("h".toList ++ ": ".toList ++ ("B".toList ++ " ".toList ++ "x".toList))).write
            "no".toList,
          [⟨"A x".toList, "foo: bar\n".toList, 0⟩]
            ++ [⟨"B".toList ++ " ".toList ++ "x".toList, "no".toList, 3⟩]) :=
  ((((runHook_entry_handling demoEnv "h".toList "x".toList [] [("h".toList, "A,B".toList)]
      []).1 ["A".toList] [] "B".toList ["h: A x".toList, "foo: bar\n".toList]
      [⟨"A x".toList, "foo: bar\n".toList, 0⟩] (by rfl) (by rfl)).1 (by rfl)).1
      "no".toList 3 (by rfl)).trans (if_pos (by decide))

end Taskd
